import Mathlib

/-!
Verification of the goparse command-line argument parser (src/goparse.go).

The Go source is shallowly embedded: Go strings are Lean `String`s (token
contents are ASCII, so Go's byte-indexed operations coincide with the
character operations used here), Go's mutable `map[string]interface{}` is a
canonical (key-sorted) association list `PMap` threaded through the
recursion, Go errors are `Except String` / `Option String` carrying the
exact message text, and the index-mutating scan loop of `parseArguments`
becomes structural recursion that consumes tokens from the front of the
list.  `Parser.Parse` reads `os.Args[1:]`; here the token list is an
explicit parameter.
-/

namespace GoParse

/-- A typed value stored in the parsed-arguments map (`interface{}` in Go,
restricted to the kinds the parser ever stores). -/
inductive Value where
  | bool (b : Bool)
  | int (n : Int)
  | str (s : String)
  | list (xs : List String)
deriving DecidableEq, Repr

/-- `Argument` from goparse.go: one flag definition. -/
structure Argument where
  Name : String
  Short : String
  Long : String
  Description : String
  DataType : String
  DefaultValue : Option Value
  Required : Bool
deriving DecidableEq, Repr

/-- `ExclusiveGroup` from goparse.go. -/
structure ExclusiveGroup where
  Options : List String
  MustHave : Bool
deriving DecidableEq, Repr

/-- `Parser` from goparse.go (metadata fields omitted: they are read only by
the excluded help/version renderers). -/
structure Parser where
  args : List Argument
  exclusiveGroups : List ExclusiveGroup
deriving DecidableEq, Repr

/-- The parsed-arguments map.  Go's `map[string]interface{}` is unordered;
it is modelled canonically as an association list kept sorted by key, so
extensionally equal maps are equal lists. -/
abbrev PMap := List (String × Value)

/-- Lexicographic strict order on character lists (by code point), used
only to keep the modelled map canonical. -/
def clLt : List Char → List Char → Bool
  | [], [] => false
  | [], _ :: _ => true
  | _ :: _, [] => false
  | a :: as, b :: bs =>
    if a.toNat < b.toNat then true
    else if b.toNat < a.toNat then false
    else clLt as bs

/-- Strict order on map keys. -/
def keyLt (a b : String) : Bool := clLt a.data b.data

/-- Map update `parsedArgs[k] = v`: insert or overwrite, keeping keys sorted. -/
def mapInsert (k : String) (v : Value) : PMap → PMap
  | [] => [(k, v)]
  | (k', v') :: rest =>
    if keyLt k k' then (k, v) :: (k', v') :: rest
    else if k = k' then (k, v) :: rest
    else (k', v') :: mapInsert k v rest

/-- Map read `parsedArgs[k]` (`none` when the key is absent). -/
def mapLookup (k : String) : PMap → Option Value
  | [] => none
  | (k', v') :: rest => if k = k' then some v' else mapLookup k rest

/-- Go's `strings.HasPrefix s p`. -/
def goHasPrefix (s p : String) : Bool :=
  p.data.isPrefixOf s.data

/-- Value of a digit list read in base 10. -/
def digitsVal (ds : List Char) : Nat :=
  ds.foldl (fun acc c => acc * 10 + (c.toNat - 48)) 0

/-- Go's `strconv.Atoi`: optional sign, then one or more base-10 digits
(the 64-bit range error is not modelled; no claim involves overflow). -/
def goAtoi (s : String) : Option Int :=
  match s.data with
  | [] => none
  | c :: rest =>
    let (neg, ds) :=
      if c = '-' then (true, rest)
      else if c = '+' then (false, rest)
      else (false, c :: rest)
    if ds ≠ [] ∧ ds.all (·.isDigit) then
      some (if neg then -(digitsVal ds : Int) else (digitsVal ds : Int))
    else none

/-- goparse.go line 138: the stacked-short-flag test
`strings.HasPrefix(arg, "-") && !strings.HasPrefix(arg, "--") && len(arg) > 2`. -/
def stackedShape (arg : String) : Bool :=
  goHasPrefix arg "-" && !goHasPrefix arg "--" && decide (2 < arg.length)

/-- goparse.go line 162: `arg == "-"+def.Short || arg == "--"+def.Long`. -/
def flagMatches (arg : String) (d : Argument) : Bool :=
  arg == "-" ++ d.Short || arg == "--" ++ d.Long

/-- goparse.go lines 139-155: the inner loop of the stacked-short-flag
branch, one character (`string(arg[j])`) at a time.  For each character the
first definition with that short alias *and* kind `"bool"` is marked true;
a character with no such definition aborts with an unknown-argument error. -/
def stackedLoop (defs : List Argument) : List Char → PMap → Except String PMap
  | [], m => .ok m
  | c :: cs, m =>
    match defs.find? (fun d => d.Short == String.singleton c && d.DataType == "bool") with
    | some d => stackedLoop defs cs (mapInsert d.Name (.bool true) m)
    | none => .error ("unknown argument: -" ++ String.singleton c)

/-- goparse.go lines 186-189: the greedy `[]string` value loop
`for i+1 < len(args) && !strings.HasPrefix(args[i+1], "-")`.
Returns the accumulated values and the remaining tokens. -/
def greedyConsume (acc : List String) : List String → List String × List String
  | [] => (acc, [])
  | v :: rest =>
    if goHasPrefix v "-" then (acc, v :: rest) else greedyConsume (acc ++ [v]) rest

/-- goparse.go lines 160-198: the `for _, def := range defs` loop that
matches a single (non-stacked) token `arg` against the definitions.  `rest`
is the token list after `arg` (value tokens are consumed from it).  A
`"bool"` match `break`s; a non-bool match consumes its value(s) and the
loop continues over the remaining definitions.  Returns the remaining
tokens, the updated map, and the `found` flag. -/
def defLoop (arg : String) : List Argument → List String → PMap → Bool →
    Except String (List String × PMap × Bool)
  | [], rest, m, found => .ok (rest, m, found)
  | d :: ds, rest, m, found =>
    if flagMatches arg d then
      if d.DataType == "bool" then
        .ok (rest, mapInsert d.Name (.bool true) m, true)
      else
        match rest with
        | [] => .error ("no value provided for argument " ++ arg)
        | v :: rest' =>
          if goHasPrefix v "-" then
            .error ("no value provided for argument " ++ arg)
          else if d.DataType == "int" then
            match goAtoi v with
            | some n => defLoop arg ds rest' (mapInsert d.Name (.int n) m) true
            | none =>
              .error ("invalid value for argument \x27" ++ d.Name ++
                "\x27: expected an integer")
          else if d.DataType == "string" then
            defLoop arg ds rest' (mapInsert d.Name (.str v) m) true
          else if d.DataType == "[]string" then
            match greedyConsume [v] rest' with
            | (values, rest'') =>
              defLoop arg ds rest'' (mapInsert d.Name (.list values) m) true
          else
            .error ("unknown data type \x27" ++ d.DataType ++
              "\x27 for argument \x27" ++ d.Name ++ "\x27")
    else
      defLoop arg ds rest m found

/-- goparse.go lines 134-203: the main scan loop of `parseArguments`,
token by token.  A token of stacked-short shape is handled by
`stackedLoop`; otherwise the definitions are scanned by `defLoop` and an
unmatched token is an unknown-argument error.  The Go `for` loop is
rendered with structural fuel `n`; every iteration consumes at least the
current token, so the fuel `args.length` supplied by `parseLoop` never
runs out (`parseLoopF_irrel` below makes this precise); the `0, _ :: _`
equation is unreachable from `parseLoop`. -/
def parseLoopF (defs : List Argument) : Nat → List String → PMap → Except String PMap
  | _, [], m => .ok m
  | 0, _ :: _, m => .ok m
  | n + 1, arg :: rest, m =>
    if stackedShape arg then
      match stackedLoop defs (arg.data.drop 1) m with
      | .error e => .error e
      | .ok m' => parseLoopF defs n rest m'
    else
      match defLoop arg defs rest m false with
      | .error e => .error e
      | .ok (rest', m', found) =>
        if found then parseLoopF defs n rest' m'
        else .error ("unknown argument: " ++ arg)

/-- The scan loop at its canonical fuel. -/
def parseLoop (defs : List Argument) (args : List String) (m : PMap) :
    Except String PMap :=
  parseLoopF defs args.length args m

/-- goparse.go lines 207-213: the value installed for an absent option —
the declared default when there is one, else `false` for kind `"bool"`
only, else nothing. -/
def defaultFor (d : Argument) : Option Value :=
  match d.DefaultValue with
  | some v => some v
  | none => if d.DataType == "bool" then some (.bool false) else none

/-- goparse.go lines 205-214: install defaults for absent options after the
scan. -/
def applyDefaults : List Argument → PMap → PMap
  | [], m => m
  | d :: ds, m =>
    match mapLookup d.Name m with
    | some _ => applyDefaults ds m
    | none =>
      match defaultFor d with
      | some v => applyDefaults ds (mapInsert d.Name v m)
      | none => applyDefaults ds m

/-- goparse.go lines 133-217: `parseArguments` — the scan loop followed by
default installation (the Go function mutates `parsedArgs`; here the map is
passed in and the final map is returned). -/
def parseArguments (defs : List Argument) (args : List String) (m : PMap) :
    Except String PMap :=
  match parseLoop defs args m with
  | .error e => .error e
  | .ok m' => .ok (applyDefaults defs m')

/-- goparse.go lines 305-312: `containsHelpArgument`. -/
def containsHelpArgument (args : List String) : Bool :=
  args.any (fun a => a == "-h" || a == "--help")

/-- goparse.go lines 314-321: `requestedVersion`. -/
def requestedVersion (args : List String) : Bool :=
  args.any (fun a => a == "--version")

/-- Go's `fmt.Sprintf("%v", xs)` for a `[]string`. -/
def goSliceFmt (xs : List String) : String :=
  "[" ++ String.intercalate " " xs ++ "]"

/-- goparse.go lines 111-118: count the group members present in the map. -/
def groupFoundCount (m : PMap) (options : List String) : Nat :=
  options.countP (fun n => (mapLookup n m).isSome)

/-- goparse.go lines 110-129: the group-validation loop (`none` = nil
error).  The misspelling "exlusive" is the source's. -/
def validateGroupsLoop (m : PMap) : List ExclusiveGroup → Option String
  | [] => none
  | g :: gs =>
    if groupFoundCount m g.Options > 1 then
      some ("mutually exclusive options passed: " ++ goSliceFmt g.Options)
    else if g.MustHave && groupFoundCount m g.Options == 0 then
      some ("one of the mutually exlusive options must be provided: " ++
        goSliceFmt g.Options)
    else validateGroupsLoop m gs

/-- goparse.go lines 109-131: `Parser.validateExclusiveGroups`. -/
def Parser.validateExclusiveGroups (p : Parser) (m : PMap) : Option String :=
  validateGroupsLoop m p.exclusiveGroups

/-- goparse.go lines 247-253: the required-argument check of `Parse`
returns the first required definition absent from the map. -/
def firstMissingRequired (defs : List Argument) (m : PMap) : Option Argument :=
  defs.find? (fun d => d.Required && (mapLookup d.Name m).isNone)

/-- goparse.go lines 85-100: `AddArgument` appends a definition built from
its arguments (the Go variadic `defaultValue ...interface{}` keeps at most
its first element; here it is an `Option Value`).  No validation of any
kind is performed.  The Go method mutates the parser and returns the new
`*Argument`; here the extended parser is returned. -/
def Parser.AddArgument (p : Parser) (name short long description dataType : String)
    (required : Bool) (defaultVal : Option Value) : Parser :=
  { p with args := p.args ++
      [{ Name := name, Short := short, Long := long, Description := description,
         DataType := dataType, DefaultValue := defaultVal, Required := required }] }

/-- goparse.go lines 220-262: `Parser.Parse`.  The Go method reads
`os.Args[1:]`; here the token list is the `args` parameter.  Returns
(result map, shouldExit, error), with `none` for Go's `nil`. -/
def Parser.Parse (p : Parser) (args : List String) :
    Option PMap × Bool × Option String :=
  if args.length == 0 || containsHelpArgument args then (none, true, none)
  else if requestedVersion args then (none, true, none)
  else
    match parseArguments p.args args [] with
    | .error e =>
      if goHasPrefix e "unknown argument" then
        (none, true, some ("unknown argument: " ++ args.headD ""))
      else (none, true, some e)
    | .ok m =>
      match firstMissingRequired p.args m with
      | some d => (none, true, some ("missing required global argument: " ++ d.Name))
      | none =>
        match p.validateExclusiveGroups m with
        | some e => (none, true, some e)
        | none => (some m, false, none)

/-! ### Sample schemas (used by concrete witnesses and counterexamples) -/

def verboseArg : Argument := ⟨"verbose", "v", "verbose", "Increase verbosity", "bool", none, false⟩

def allArg : Argument := ⟨"all", "a", "all", "Include all entries", "bool", none, false⟩

def briefArg : Argument := ⟨"brief", "b", "brief", "Brief output", "bool", none, false⟩

def configArg : Argument := ⟨"config", "c", "config", "Path to config file", "string", none, false⟩

def retryArg : Argument := ⟨"retry", "r", "retry", "Retry count", "int", none, false⟩

def manyArg : Argument := ⟨"many", "m", "many", "Several values", "[]string", none, false⟩

def requiredDefaultArg : Argument :=
  ⟨"config", "c", "config", "Path to config file", "string", some (.str "a.yaml"), true⟩

def requiredInputArg : Argument := ⟨"input", "i", "input", "Input file", "string", none, true⟩

def sampleParser : Parser :=
  ⟨[verboseArg, allArg, briefArg, configArg, retryArg, manyArg], []⟩

/-- Two Bool options in one mutual-exclusion group. -/
def exclParser : Parser := ⟨[verboseArg, allArg], [⟨["verbose", "all"], false⟩]⟩

/-- A parser whose required option also declares a default, built through
`AddArgument` to show that schema construction accepts the combination. -/
def reqDefParser : Parser :=
  (Parser.AddArgument (Parser.AddArgument ⟨[], []⟩
    "verbose" "v" "verbose" "Increase verbosity" "bool" false none)
    "config" "c" "config" "Path to config file" "string" true (some (.str "a.yaml")))

def reqInputParser : Parser := ⟨[verboseArg, requiredInputArg], []⟩

/-- The remaining tokens start at a value boundary: either exhausted or the
next token looks like a flag (starts with `-`). -/
def dashBoundary : List String → Bool
  | [] => true
  | v :: _ => goHasPrefix v "-"

/-- The `Except` result-shape relation used by the append lemmas. -/
def shiftRest (s : List String) :
    Except String (List String × PMap × Bool) →
      Except String (List String × PMap × Bool)
  | .error e => .error e
  | .ok (r, m, f) => .ok (r ++ s, m, f)

/-- A sequence of map updates, applied left to right. -/
def foldIns (L : List (String × Value)) (m : PMap) : PMap :=
  L.foldl (fun acc kv => mapInsert kv.1 kv.2 acc) m

/-- `greedyConsume` never lengthens the remaining token list. -/
theorem greedyConsume_rest_len (acc : List String) (l : List String) :
    (greedyConsume acc l).2.length ≤ l.length := by
  induction l generalizing acc with
  | nil => simp [greedyConsume]
  | cons v rest ih =>
    simp only [greedyConsume]
    split
    · simp
    · exact le_trans (ih (acc ++ [v])) (by simp)

/-- `defLoop` never lengthens the remaining token list. -/
theorem defLoop_rest_len (arg : String) (ds : List Argument) (rest : List String)
    (m : PMap) (found : Bool) (rest' : List String) (m' : PMap) (f' : Bool)
    (h : defLoop arg ds rest m found = .ok (rest', m', f')) :
    rest'.length ≤ rest.length := by
  induction ds generalizing rest m found with
  | nil =>
    simp only [defLoop] at h
    cases h
    exact le_refl _
  | cons d ds ih =>
    simp only [defLoop] at h
    split at h
    · split at h
      · cases h
        exact le_refl _
      · cases rest with
        | nil => cases h
        | cons v rest₀ =>
          simp only at h
          split at h
          · cases h
          · split at h
            · split at h
              · exact le_trans (ih _ _ _ h) (by simp)
              · cases h
            · split at h
              · exact le_trans (ih _ _ _ h) (by simp)
              · split at h
                · have hlen := greedyConsume_rest_len [v] rest₀
                  have := ih _ _ _ h
                  simp only [List.length_cons]
                  omega
                · cases h
    · exact ih _ _ _ h

/-- Any fuel at least the token count gives the same scan result. -/
theorem parseLoopF_irrel (defs : List Argument) :
    ∀ (n n' : Nat) (args : List String) (m : PMap),
      args.length ≤ n → args.length ≤ n' →
      parseLoopF defs n args m = parseLoopF defs n' args m := by
  intro n
  induction n with
  | zero =>
    intro n' args m hn _
    have : args = [] := List.length_eq_zero.mp (Nat.le_zero.mp hn)
    subst this
    cases n' <;> rfl
  | succ n ih =>
    intro n' args m hn hn'
    cases args with
    | nil => cases n' <;> rfl
    | cons arg rest =>
      cases n' with
      | zero => simp at hn'
      | succ k =>
        simp only [List.length_cons] at hn hn'
        simp only [parseLoopF]
        split
        · cases stackedLoop defs (arg.data.drop 1) m with
          | error e => rfl
          | ok m' => exact ih k rest m' (by omega) (by omega)
        · cases hE : defLoop arg defs rest m false with
          | error e => rfl
          | ok r =>
            obtain ⟨rest', m', f⟩ := r
            cases f
            · rfl
            · simp only [if_pos]
              have hr := defLoop_rest_len arg defs rest m false rest' m' true hE
              exact ih k rest' m' (by omega) (by omega)

/-! ### Order facts for the canonical map -/

theorem clLt_irrefl : ∀ l : List Char, clLt l l = false
  | [] => rfl
  | a :: as => by
    simp only [clLt, Nat.lt_irrefl, if_false, if_neg (Nat.lt_irrefl _)]
    exact clLt_irrefl as

theorem clLt_asymm : ∀ {l₁ l₂ : List Char}, clLt l₁ l₂ = true → clLt l₂ l₁ = false
  | [], [], h => by simp [clLt] at h
  | [], _ :: _, _ => rfl
  | _ :: _, [], h => by simp [clLt] at h
  | a :: as, b :: bs, h => by
    simp only [clLt] at h ⊢
    rcases Nat.lt_trichotomy a.toNat b.toNat with hab | hab | hab
    · simp [hab, Nat.lt_asymm hab]
    · simp only [hab, Nat.lt_irrefl, if_false] at h ⊢
      exact clLt_asymm h
    · simp [hab, Nat.lt_asymm hab] at h

theorem eq_of_clLt_false : ∀ {l₁ l₂ : List Char},
    clLt l₁ l₂ = false → clLt l₂ l₁ = false → l₁ = l₂
  | [], [], _, _ => rfl
  | [], _ :: _, h, _ => by simp [clLt] at h
  | _ :: _, [], _, h => by simp [clLt] at h
  | a :: as, b :: bs, h₁, h₂ => by
    simp only [clLt] at h₁ h₂
    rcases Nat.lt_trichotomy a.toNat b.toNat with hab | hab | hab
    · simp [hab] at h₁
    · have ha : a = b := Char.eq_of_val_eq (by
        have := congrArg Char.ofNat hab
        simpa [Char.ofNat_toNat] using congrArg Char.val this)
      subst ha
      simp only [Nat.lt_irrefl, if_false] at h₁ h₂
      rw [eq_of_clLt_false h₁ h₂]
    · simp [hab, Nat.lt_asymm hab] at h₂

theorem keyLt_irrefl (a : String) : keyLt a a = false := clLt_irrefl a.data

theorem keyLt_asymm {a b : String} (h : keyLt a b = true) : keyLt b a = false :=
  clLt_asymm h

theorem eq_of_keyLt_false {a b : String} (h₁ : keyLt a b = false)
    (h₂ : keyLt b a = false) : a = b := by
  cases a; cases b
  exact congrArg String.mk (eq_of_clLt_false h₁ h₂)

theorem keyLt_trichotomy (a b : String) :
    keyLt a b = true ∨ (keyLt a b = false ∧ keyLt b a = false ∧ a = b) ∨
      (keyLt a b = false ∧ keyLt b a = true) := by
  cases hab : keyLt a b
  · cases hba : keyLt b a
    · exact Or.inr (Or.inl ⟨rfl, rfl, eq_of_keyLt_false hab hba⟩)
    · exact Or.inr (Or.inr ⟨rfl, rfl⟩)
  · exact Or.inl rfl

/-! ### Map lemmas -/

theorem keyLt_ne' {a b : String} (h : keyLt a b = true) : a ≠ b := by
  intro he
  rw [he, keyLt_irrefl] at h
  cases h

theorem mapInsert_cons_lt {k k' : String} {v v' : Value} {rest : PMap}
    (h : keyLt k k' = true) :
    mapInsert k v ((k', v') :: rest) = (k, v) :: (k', v') :: rest := by
  simp [mapInsert, h]

theorem mapInsert_cons_eqk {k k' : String} {v v' : Value} {rest : PMap}
    (he : k = k') :
    mapInsert k v ((k', v') :: rest) = (k, v) :: rest := by
  subst he
  simp [mapInsert, keyLt_irrefl]

theorem mapInsert_cons_gt {k k' : String} {v v' : Value} {rest : PMap}
    (h : keyLt k k' = false) (hne : k ≠ k') :
    mapInsert k v ((k', v') :: rest) = (k', v') :: mapInsert k v rest := by
  simp [mapInsert, h, hne]

theorem mapLookup_mapInsert_self (k : String) (v : Value) :
    ∀ m : PMap, mapLookup k (mapInsert k v m) = some v
  | [] => by simp [mapInsert, mapLookup]
  | (k', v') :: rest => by
    rcases keyLt_trichotomy k k' with h | ⟨h₁, h₂, he⟩ | ⟨h₁, h₂⟩
    · rw [mapInsert_cons_lt h]
      simp [mapLookup]
    · rw [mapInsert_cons_eqk he]
      simp [mapLookup]
    · rw [mapInsert_cons_gt h₁ (Ne.symm (keyLt_ne' h₂))]
      simp only [mapLookup, if_neg (Ne.symm (keyLt_ne' h₂))]
      exact mapLookup_mapInsert_self k v rest

theorem mapLookup_mapInsert_ne {k k' : String} (h : k ≠ k') (v : Value) :
    ∀ m : PMap, mapLookup k (mapInsert k' v m) = mapLookup k m
  | [] => by simp [mapInsert, mapLookup, h]
  | (k₀, v₀) :: rest => by
    rcases keyLt_trichotomy k' k₀ with hc | ⟨hc₁, hc₂, hce⟩ | ⟨hc₁, hc₂⟩
    · rw [mapInsert_cons_lt hc]
      simp [mapLookup, h]
    · rw [mapInsert_cons_eqk hce]
      subst hce
      simp [mapLookup, h]
    · rw [mapInsert_cons_gt hc₁ (Ne.symm (keyLt_ne' hc₂))]
      simp only [mapLookup]
      split
      · rfl
      · exact mapLookup_mapInsert_ne h v rest

theorem mapInsert_mapInsert_self (k : String) (v w : Value) :
    ∀ m : PMap, mapInsert k v (mapInsert k w m) = mapInsert k v m
  | [] => by simp [mapInsert, keyLt_irrefl]
  | (k', v') :: rest => by
    rcases keyLt_trichotomy k k' with h | ⟨h₁, h₂, he⟩ | ⟨h₁, h₂⟩
    · rw [mapInsert_cons_lt h, mapInsert_cons_lt h,
        mapInsert_cons_eqk rfl]
    · rw [mapInsert_cons_eqk he, mapInsert_cons_eqk he,
        mapInsert_cons_eqk rfl]
    · have hne : k ≠ k' := Ne.symm (keyLt_ne' h₂)
      rw [mapInsert_cons_gt h₁ hne, mapInsert_cons_gt h₁ hne,
        mapInsert_cons_gt h₁ hne, mapInsert_mapInsert_self k v w rest]

theorem clLt_nil_false : ∀ l : List Char, clLt l [] = false
  | [] => rfl
  | _ :: _ => rfl

theorem clLt_trans : ∀ {l₁ l₂ l₃ : List Char},
    clLt l₁ l₂ = true → clLt l₂ l₃ = true → clLt l₁ l₃ = true
  | _, l₂, [], _, h₂ => absurd h₂ (by simp [clLt_nil_false])
  | [], _, _ :: _, _, _ => rfl
  | _ :: _, [], _, h₁, _ => by simp [clLt_nil_false] at h₁
  | a :: as, b :: bs, c :: cs, h₁, h₂ => by
    simp only [clLt] at h₁ h₂ ⊢
    rcases Nat.lt_trichotomy a.toNat b.toNat with hab | hab | hab
    · rcases Nat.lt_trichotomy b.toNat c.toNat with hbc | hbc | hbc
      · simp [Nat.lt_trans hab hbc]
      · simp [hbc ▸ hab]
      · simp [hbc, Nat.lt_asymm hbc] at h₂
    · rcases Nat.lt_trichotomy b.toNat c.toNat with hbc | hbc | hbc
      · simp [hab ▸ hbc]
      · have hac : a.toNat = c.toNat := hab.trans hbc
        simp only [hab, Nat.lt_irrefl, if_false] at h₁
        simp only [hbc, Nat.lt_irrefl, if_false] at h₂
        simp only [hac, Nat.lt_irrefl, if_false]
        exact clLt_trans h₁ h₂
      · simp [hbc, Nat.lt_asymm hbc] at h₂
    · simp [hab, Nat.lt_asymm hab] at h₁

theorem keyLt_trans {a b c : String} (h₁ : keyLt a b = true)
    (h₂ : keyLt b c = true) : keyLt a c = true :=
  clLt_trans h₁ h₂

theorem keyLt_false_of_gt {a b : String} (h : keyLt b a = true) :
    keyLt a b = false := keyLt_asymm h

theorem mapInsert_comm_of_keyLt (k₁ k₂ : String) (v₁ v₂ : Value)
    (hlt : keyLt k₁ k₂ = true) :
    ∀ m : PMap, mapInsert k₁ v₁ (mapInsert k₂ v₂ m) =
      mapInsert k₂ v₂ (mapInsert k₁ v₁ m) := by
  have hk : k₁ ≠ k₂ := keyLt_ne' hlt
  have hk' : k₂ ≠ k₁ := Ne.symm hk
  have hba : keyLt k₂ k₁ = false := keyLt_asymm hlt
  intro m
  induction m with
  | nil =>
    show mapInsert k₁ v₁ [(k₂, v₂)] = mapInsert k₂ v₂ [(k₁, v₁)]
    rw [mapInsert_cons_lt hlt, mapInsert_cons_gt hba hk']
    rfl
  | cons hd rest ih =>
    obtain ⟨k', v'⟩ := hd
    rcases keyLt_trichotomy k₁ k' with ha | ⟨ha₁, ha₂, hae⟩ | ⟨ha₁, ha₂⟩ <;>
      rcases keyLt_trichotomy k₂ k' with hb | ⟨hb₁, hb₂, hbe⟩ | ⟨hb₁, hb₂⟩
    · -- k₁ < k', k₂ < k'
      rw [mapInsert_cons_lt hb, mapInsert_cons_lt hlt,
        mapInsert_cons_lt ha, mapInsert_cons_gt hba hk',
        mapInsert_cons_lt hb]
    · -- k₁ < k', k₂ = k'
      subst hbe
      rw [mapInsert_cons_eqk rfl, mapInsert_cons_lt ha,
        mapInsert_cons_lt ha, mapInsert_cons_gt hba hk',
        mapInsert_cons_eqk rfl]
    · -- k₁ < k', k' < k₂
      have hne₂ : k₂ ≠ k' := Ne.symm (keyLt_ne' hb₂)
      rw [mapInsert_cons_gt hb₁ hne₂, mapInsert_cons_lt ha,
        mapInsert_cons_lt ha, mapInsert_cons_gt hba hk',
        mapInsert_cons_gt hb₁ hne₂]
    · -- k₁ = k', k₂ < k': contradicts k₁ < k₂
      subst hae
      exact absurd hlt (by simp [keyLt_asymm hb])
    · -- k₁ = k' = k₂: contradicts k₁ ≠ k₂
      exact absurd (hae.trans hbe.symm) hk
    · -- k₁ = k', k' < k₂
      subst hae
      have hne₂ : k₂ ≠ k₁ := Ne.symm (keyLt_ne' hb₂)
      rw [mapInsert_cons_gt hb₁ hne₂, mapInsert_cons_eqk rfl,
        mapInsert_cons_eqk rfl, mapInsert_cons_gt hb₁ hne₂]
    · -- k' < k₁, k₂ < k': k₂ < k₁ contradicts k₁ < k₂
      exact absurd hlt (by simp [keyLt_asymm (keyLt_trans hb ha₂)])
    · -- k' < k₁, k₂ = k': k₂ < k₁ contradicts k₁ < k₂
      subst hbe
      exact absurd hlt (by simp [keyLt_asymm ha₂])
    · -- k' < k₁, k' < k₂
      have hne₁ : k₁ ≠ k' := Ne.symm (keyLt_ne' ha₂)
      have hne₂ : k₂ ≠ k' := Ne.symm (keyLt_ne' hb₂)
      rw [mapInsert_cons_gt hb₁ hne₂, mapInsert_cons_gt ha₁ hne₁,
        mapInsert_cons_gt ha₁ hne₁, mapInsert_cons_gt hb₁ hne₂, ih]

theorem mapInsert_comm {k₁ k₂ : String} (v₁ v₂ : Value)
    (hv : k₁ = k₂ → v₁ = v₂) (m : PMap) :
    mapInsert k₁ v₁ (mapInsert k₂ v₂ m) =
      mapInsert k₂ v₂ (mapInsert k₁ v₁ m) := by
  rcases keyLt_trichotomy k₁ k₂ with h | ⟨_, _, he⟩ | ⟨_, h⟩
  · exact mapInsert_comm_of_keyLt k₁ k₂ v₁ v₂ h m
  · subst he
    rw [hv rfl, mapInsert_mapInsert_self]
  · exact (mapInsert_comm_of_keyLt k₂ k₁ v₂ v₁ h m).symm

/-! ### Scan-loop lemmas -/

theorem greedyConsume_append {s : List String} (hs : dashBoundary s = true) :
    ∀ (t : List String) (acc : List String),
      greedyConsume acc (t ++ s) =
        ((greedyConsume acc t).1, (greedyConsume acc t).2 ++ s)
  | [], acc => by
    cases s with
    | nil => simp [greedyConsume]
    | cons v s' =>
      simp only [dashBoundary] at hs
      simp [greedyConsume, hs]
  | v :: t', acc => by
    simp only [List.cons_append, greedyConsume]
    split
    · rfl
    · exact greedyConsume_append hs t' (acc ++ [v])

theorem greedyConsume_clean {post : List String} (hp : dashBoundary post = true) :
    ∀ (vs : List String) (acc : List String),
      vs.all (fun v => !goHasPrefix v "-") = true →
      greedyConsume acc (vs ++ post) = (acc ++ vs, post)
  | [], acc, _ => by
    cases post with
    | nil => simp [greedyConsume]
    | cons v post' =>
      simp only [dashBoundary] at hp
      simp [greedyConsume, hp]
  | v :: vs', acc, hvs => by
    simp only [List.all_cons, Bool.and_eq_true, Bool.not_eq_true'] at hvs
    have h1 : greedyConsume acc ((v :: vs') ++ post) =
        greedyConsume (acc ++ [v]) (vs' ++ post) := by
      simp [greedyConsume, hvs.1]
    rw [h1, greedyConsume_clean hp vs' (acc ++ [v]) hvs.2]
    simp

theorem defLoop_append {s : List String} (hs : dashBoundary s = true)
    (arg : String) :
    ∀ (ds : List Argument) (t : List String) (m : PMap) (found : Bool),
      defLoop arg ds (t ++ s) m found = shiftRest s (defLoop arg ds t m found)
  | [], t, m, found => by simp [defLoop, shiftRest]
  | d :: ds, t, m, found => by
    simp only [defLoop]
    split
    · split
      · simp [shiftRest]
      · cases t with
        | nil =>
          cases s with
          | nil => simp [defLoop, shiftRest]
          | cons v s' =>
            simp only [dashBoundary] at hs
            simp [defLoop, shiftRest, hs]
        | cons v t' =>
          simp only [List.cons_append]
          split
          · simp [shiftRest]
          · split
            · split
              · exact defLoop_append hs arg ds t' _ true
              · simp [shiftRest]
            · split
              · exact defLoop_append hs arg ds t' _ true
              · split
                · rw [greedyConsume_append hs t' [v]]
                  exact defLoop_append hs arg ds _ _ true
                · simp [shiftRest]
    · exact defLoop_append hs arg ds t m found

theorem defLoop_no_match (arg : String) :
    ∀ (ds : List Argument), (∀ d ∈ ds, flagMatches arg d = false) →
      ∀ (rest : List String) (m : PMap) (found : Bool),
        defLoop arg ds rest m found = .ok (rest, m, found)
  | [], _, rest, m, found => rfl
  | d :: ds, h, rest, m, found => by
    have hd : flagMatches arg d = false := h d (List.mem_cons_self d ds)
    simp only [defLoop, hd, Bool.false_eq_true, if_false]
    exact defLoop_no_match arg ds (fun d' hd' => h d' (List.mem_cons_of_mem d hd')) rest m found

theorem defLoop_skip (arg : String) :
    ∀ (ds₁ : List Argument), (∀ d ∈ ds₁, flagMatches arg d = false) →
      ∀ (ds₂ : List Argument) (rest : List String) (m : PMap) (found : Bool),
        defLoop arg (ds₁ ++ ds₂) rest m found = defLoop arg ds₂ rest m found
  | [], _, ds₂, rest, m, found => rfl
  | d :: ds₁, h, ds₂, rest, m, found => by
    have hd : flagMatches arg d = false := h d (List.mem_cons_self d ds₁)
    simp only [List.cons_append, defLoop, hd, Bool.false_eq_true, if_false]
    exact defLoop_skip arg ds₁ (fun d' hd' => h d' (List.mem_cons_of_mem d hd')) ds₂ rest m found

theorem parseLoop_nil (defs : List Argument) (m : PMap) :
    parseLoop defs [] m = .ok m := rfl

theorem parseLoop_cons (defs : List Argument) (arg : String)
    (rest : List String) (m : PMap) :
    parseLoop defs (arg :: rest) m =
      if stackedShape arg then
        match stackedLoop defs (arg.data.drop 1) m with
        | .error e => .error e
        | .ok m' => parseLoop defs rest m'
      else
        match defLoop arg defs rest m false with
        | .error e => .error e
        | .ok (rest', m', found) =>
          if found then parseLoop defs rest' m'
          else .error ("unknown argument: " ++ arg) := by
  show parseLoopF defs (rest.length + 1) (arg :: rest) m = _
  simp only [parseLoopF]
  split
  · cases stackedLoop defs (arg.data.drop 1) m with
    | error e => rfl
    | ok m' => rfl
  · cases hE : defLoop arg defs rest m false with
    | error e => rfl
    | ok r =>
      obtain ⟨rest', m', f⟩ := r
      cases f
      · rfl
      · simp only [if_pos]
        have hr := defLoop_rest_len arg defs rest m false rest' m' true hE
        exact parseLoopF_irrel defs rest.length rest'.length rest' m' hr (le_refl _)

/-- Congruence for the scan loop: replacing a suffix by an equivalent one
(both starting at a value boundary) does not change the scan of any prefix,
because value consumption never crosses a token that starts with `-`. -/
theorem parseLoop_boundary_congr (defs : List Argument) (s₁ s₂ : List String)
    (hs₁ : dashBoundary s₁ = true) (hs₂ : dashBoundary s₂ = true)
    (hcont : ∀ m, parseLoop defs s₁ m = parseLoop defs s₂ m) :
    ∀ (n : Nat) (pre : List String) (m : PMap), pre.length ≤ n →
      parseLoop defs (pre ++ s₁) m = parseLoop defs (pre ++ s₂) m := by
  intro n
  induction n with
  | zero =>
    intro pre m hlen
    have hp : pre = [] := List.length_eq_zero.mp (Nat.le_zero.mp hlen)
    subst hp
    exact hcont m
  | succ n ih =>
    intro pre m hlen
    cases pre with
    | nil => exact hcont m
    | cons arg pre' =>
      have hlen' : pre'.length ≤ n := by
        simp only [List.length_cons] at hlen
        omega
      simp only [List.cons_append, parseLoop_cons]
      by_cases hS : stackedShape arg = true
      · rw [if_pos hS, if_pos hS]
        cases stackedLoop defs (arg.data.drop 1) m with
        | error e => rfl
        | ok m' => exact ih pre' m' hlen'
      · rw [if_neg hS, if_neg hS,
          defLoop_append hs₁ arg defs pre' m false,
          defLoop_append hs₂ arg defs pre' m false]
        cases hE : defLoop arg defs pre' m false with
        | error e => rfl
        | ok r =>
          obtain ⟨r, m', f⟩ := r
          simp only [shiftRest]
          cases f
          · rfl
          · simp only [if_pos]
            have hr : r.length ≤ n :=
              le_trans (defLoop_rest_len arg defs pre' m false r m' true hE) hlen'
            exact ih r m' hr

/-! ### `find?` helpers -/

theorem find?_congr_mem {α : Type} (p q : α → Bool) :
    ∀ l : List α, (∀ x ∈ l, p x = q x) → l.find? p = l.find? q
  | [], _ => rfl
  | x :: l, h => by
    simp only [List.find?]
    rw [h x (List.mem_cons_self x l)]
    split
    · rfl
    · exact find?_congr_mem p q l (fun y hy => h y (List.mem_cons_of_mem x hy))

theorem find?_decomp {α : Type} (p : α → Bool) :
    ∀ {l : List α} {x : α}, l.find? p = some x →
      p x = true ∧ ∃ l₁ l₂, l = l₁ ++ x :: l₂ ∧ ∀ y ∈ l₁, p y = false
  | [], x, h => by simp [List.find?] at h
  | a :: l, x, h => by
    cases ha : p a with
    | true =>
      rw [List.find?_cons_of_pos l ha] at h
      cases h
      exact ⟨ha, [], l, rfl, by simp⟩
    | false =>
      rw [List.find?_cons_of_neg l (by simp [ha])] at h
      obtain ⟨hx, l₁, l₂, hl, hl₁⟩ := find?_decomp p h
      refine ⟨hx, a :: l₁, l₂, by rw [hl, List.cons_append], ?_⟩
      intro y hy
      rcases List.mem_cons.mp hy with rfl | hy
      · exact ha
      · exact hl₁ y hy

/-! ### Token-shape lemmas for short flags -/

theorem dash_append_data (s : String) : ("-" ++ s).data = '-' :: s.data := rfl

theorem ddash_append_data (s : String) :
    ("--" ++ s).data = '-' :: '-' :: s.data := rfl

theorem data_dash_single (a : Char) :
    ("-" ++ String.singleton a).data = ['-', a] := rfl

theorem data_dash_double (a b : Char) :
    ("-" ++ String.singleton a ++ String.singleton b).data = ['-', a, b] := rfl

theorem stackedShape_dash_double (a b : Char) (ha : a ≠ '-') :
    stackedShape ("-" ++ String.singleton a ++ String.singleton b) = true := by
  have hne : (('-' : Char) == a) = false := beq_eq_false_iff_ne.mpr (Ne.symm ha)
  have h1 : goHasPrefix ("-" ++ String.singleton a ++ String.singleton b) "-" = true := by
    show List.isPrefixOf ['-'] ['-', a, b] = true
    simp [List.isPrefixOf]
  have h2 : goHasPrefix ("-" ++ String.singleton a ++ String.singleton b) "--" = false := by
    show List.isPrefixOf ['-', '-'] ['-', a, b] = false
    simp [List.isPrefixOf, hne]
  have h3 : ("-" ++ String.singleton a ++ String.singleton b).length = 3 := rfl
  simp [stackedShape, h1, h2, h3]

theorem stackedShape_dash_single (a : Char) :
    stackedShape ("-" ++ String.singleton a) = false := by
  have h3 : ("-" ++ String.singleton a).length = 2 := rfl
  simp [stackedShape, h3]

theorem flagMatches_dash_single (a : Char) (ha : a ≠ '-') (d : Argument) :
    flagMatches ("-" ++ String.singleton a) d = (d.Short == String.singleton a) := by
  rw [Bool.eq_iff_iff]
  simp only [flagMatches, Bool.or_eq_true, beq_iff_eq]
  constructor
  · rintro (h | h)
    · have h2 := congrArg String.data h
      rw [dash_append_data, dash_append_data] at h2
      injection h2 with _ h3
      exact String.ext h3.symm
    · have h2 := congrArg String.data h
      rw [dash_append_data, ddash_append_data] at h2
      injection h2 with _ h3
      have h4 : [a] = '-' :: d.Long.data := h3
      injection h4 with h5
      exact absurd h5 ha
  · intro h
    left
    rw [h]

/-! ### Stacked-flag versus separated-flag lemmas (claim C1) -/

theorem stackedLoop_pair (defs : List Argument) (a b : Char) (da db : Argument)
    (hfa : defs.find? (fun d => d.Short == String.singleton a && d.DataType == "bool") = some da)
    (hfb : defs.find? (fun d => d.Short == String.singleton b && d.DataType == "bool") = some db)
    (m : PMap) :
    stackedLoop defs [a, b] m =
      .ok (mapInsert db.Name (.bool true) (mapInsert da.Name (.bool true) m)) := by
  simp [stackedLoop, hfa, hfb]

theorem defLoop_first_bool (t : String) (defs : List Argument) (da : Argument)
    (hf : defs.find? (flagMatches t) = some da)
    (hbool : da.DataType = "bool") (rest : List String) (m : PMap) (found : Bool) :
    defLoop t defs rest m found = .ok (rest, mapInsert da.Name (.bool true) m, true) := by
  obtain ⟨hpda, l₁, l₂, hldef, hl₁⟩ := find?_decomp _ hf
  rw [hldef, defLoop_skip t l₁ hl₁]
  simp [defLoop, hpda, hbool]

/-- The combined stacked-loop search predicate agrees with the plain
short-alias predicate when every definition carrying that alias is Bool. -/
theorem find?_short_bool_eq (defs : List Argument) (a : Char)
    (hall : ∀ d ∈ defs, d.Short = String.singleton a → d.DataType = "bool") :
    defs.find? (fun d => d.Short == String.singleton a && d.DataType == "bool") =
      defs.find? (fun d => d.Short == String.singleton a) := by
  apply find?_congr_mem
  intro d hd
  cases hs : (d.Short == String.singleton a) with
  | true =>
    have := hall d hd (beq_iff_eq.mp hs)
    simp [this]
  | false => simp

theorem parseLoop_bool_flag (defs : List Argument) (a : Char) (ha : a ≠ '-')
    (da : Argument)
    (hfa : defs.find? (fun d => d.Short == String.singleton a && d.DataType == "bool") = some da)
    (hall : ∀ d ∈ defs, d.Short = String.singleton a → d.DataType = "bool")
    (rest : List String) (m : PMap) :
    parseLoop defs (("-" ++ String.singleton a) :: rest) m =
      parseLoop defs rest (mapInsert da.Name (.bool true) m) := by
  have hfm : defs.find? (flagMatches ("-" ++ String.singleton a)) = some da := by
    rw [find?_congr_mem _ (fun d => d.Short == String.singleton a) defs
      (fun d _ => flagMatches_dash_single a ha d)]
    rw [← find?_short_bool_eq defs a hall]
    exact hfa
  have hbool : da.DataType = "bool" := by
    have := (find?_decomp _ hfa).1
    simp only [Bool.and_eq_true, beq_iff_eq] at this
    exact this.2
  rw [parseLoop_cons, if_neg (by simp [stackedShape_dash_single a]),
    defLoop_first_bool _ defs da hfm hbool rest m false]
  simp

theorem parseLoop_stacked_head (defs : List Argument) (a b : Char)
    (ha : a ≠ '-') (da db : Argument)
    (hfa : defs.find? (fun d => d.Short == String.singleton a && d.DataType == "bool") = some da)
    (hfb : defs.find? (fun d => d.Short == String.singleton b && d.DataType == "bool") = some db)
    (post : List String) (m : PMap) :
    parseLoop defs (("-" ++ String.singleton a ++ String.singleton b) :: post) m =
      parseLoop defs post (mapInsert db.Name (.bool true) (mapInsert da.Name (.bool true) m)) := by
  rw [parseLoop_cons, if_pos (stackedShape_dash_double a b ha)]
  have hdrop : ("-" ++ String.singleton a ++ String.singleton b).data.drop 1 = [a, b] := rfl
  rw [hdrop, stackedLoop_pair defs a b da db hfa hfb m]

/-- C1: for any schema in which `a` and `b` are short aliases carried only
by Bool-kind definitions (with at least one definition for each), parsing a
token list containing the stacked token `-ab` gives the same result as
parsing the list with `-ab` replaced by `-a -b`, and the same as with
`-b -a` (stacked short-boolean form is equivalent to separated flags in
either order). -/
theorem claim_C1_stacked_bool_equiv (defs : List Argument) (a b : Char)
    (ha : a ≠ '-') (hb : b ≠ '-')
    (hex_a : ∃ d ∈ defs, d.Short = String.singleton a)
    (hall_a : ∀ d ∈ defs, d.Short = String.singleton a → d.DataType = "bool")
    (hex_b : ∃ d ∈ defs, d.Short = String.singleton b)
    (hall_b : ∀ d ∈ defs, d.Short = String.singleton b → d.DataType = "bool")
    (pre post : List String) :
    parseArguments defs
        (pre ++ ("-" ++ String.singleton a ++ String.singleton b) :: post) [] =
      parseArguments defs
        (pre ++ ("-" ++ String.singleton a) :: ("-" ++ String.singleton b) :: post) [] ∧
    parseArguments defs
        (pre ++ ("-" ++ String.singleton a ++ String.singleton b) :: post) [] =
      parseArguments defs
        (pre ++ ("-" ++ String.singleton b) :: ("-" ++ String.singleton a) :: post) [] := by
  have hfa : (defs.find? (fun d => d.Short == String.singleton a && d.DataType == "bool")).isSome := by
    rw [find?_short_bool_eq defs a hall_a]
    apply List.find?_isSome.mpr
    obtain ⟨d, hd, hds⟩ := hex_a
    exact ⟨d, hd, by simp [hds]⟩
  obtain ⟨da, hfa⟩ := Option.isSome_iff_exists.mp hfa
  have hfb : (defs.find? (fun d => d.Short == String.singleton b && d.DataType == "bool")).isSome := by
    rw [find?_short_bool_eq defs b hall_b]
    apply List.find?_isSome.mpr
    obtain ⟨d, hd, hds⟩ := hex_b
    exact ⟨d, hd, by simp [hds]⟩
  obtain ⟨db, hfb⟩ := Option.isSome_iff_exists.mp hfb
  have hbd1 : dashBoundary (("-" ++ String.singleton a ++ String.singleton b) :: post) = true := by
    show List.isPrefixOf ['-'] ['-', a, b] = true
    simp [List.isPrefixOf]
  have hbd2 : dashBoundary (("-" ++ String.singleton a) :: ("-" ++ String.singleton b) :: post) = true := by
    show List.isPrefixOf ['-'] ['-', a] = true
    simp [List.isPrefixOf]
  have hbd3 : dashBoundary (("-" ++ String.singleton b) :: ("-" ++ String.singleton a) :: post) = true := by
    show List.isPrefixOf ['-'] ['-', b] = true
    simp [List.isPrefixOf]
  have h1 : ∀ m : PMap,
      parseLoop defs (("-" ++ String.singleton a ++ String.singleton b) :: post) m =
        parseLoop defs (("-" ++ String.singleton a) :: ("-" ++ String.singleton b) :: post) m := by
    intro m
    rw [parseLoop_stacked_head defs a b ha da db hfa hfb post m,
      parseLoop_bool_flag defs a ha da hfa hall_a _ m,
      parseLoop_bool_flag defs b hb db hfb hall_b post _]
  have h2 : ∀ m : PMap,
      parseLoop defs (("-" ++ String.singleton a ++ String.singleton b) :: post) m =
        parseLoop defs (("-" ++ String.singleton b) :: ("-" ++ String.singleton a) :: post) m := by
    intro m
    rw [parseLoop_stacked_head defs a b ha da db hfa hfb post m,
      parseLoop_bool_flag defs b hb db hfb hall_b _ m,
      parseLoop_bool_flag defs a ha da hfa hall_a post _,
      mapInsert_comm (Value.bool true) (Value.bool true) (fun _ => rfl) m]
  constructor
  · have := parseLoop_boundary_congr defs _ _ hbd1 hbd2 h1 pre.length pre [] (le_refl _)
    simp only [parseArguments]
    rw [this]
  · have := parseLoop_boundary_congr defs _ _ hbd1 hbd3 h2 pre.length pre [] (le_refl _)
    simp only [parseArguments]
    rw [this]

/-- Witness for C1 at a concrete schema and input: `-ab` versus `-a -b`
versus `-b -a` over two Bool definitions with aliases `a` and `b`. -/
theorem claim_C1_stacked_bool_equiv_witness :
    parseArguments [allArg, briefArg] ["-ab"] [] =
        parseArguments [allArg, briefArg] ["-a", "-b"] [] ∧
    parseArguments [allArg, briefArg] ["-ab"] [] =
        parseArguments [allArg, briefArg] ["-b", "-a"] [] :=
  claim_C1_stacked_bool_equiv [allArg, briefArg] 'a' 'b'
    (by decide) (by decide)
    ⟨allArg, by simp, by decide⟩
    (by decide)
    ⟨briefArg, by simp, by decide⟩
    (by decide)
    [] []

/-! ### Help and version short-circuit (claim C6) -/

theorem containsHelpArgument_iff (args : List String) :
    containsHelpArgument args = true ↔ "-h" ∈ args ∨ "--help" ∈ args := by
  simp only [containsHelpArgument, List.any_eq_true, Bool.or_eq_true, beq_iff_eq]
  constructor
  · rintro ⟨a, hmem, rfl | rfl⟩
    · exact Or.inl hmem
    · exact Or.inr hmem
  · rintro (h | h)
    · exact ⟨"-h", h, Or.inl rfl⟩
    · exact ⟨"--help", h, Or.inr rfl⟩

theorem requestedVersion_iff (args : List String) :
    requestedVersion args = true ↔ "--version" ∈ args := by
  simp only [requestedVersion, List.any_eq_true, beq_iff_eq]
  constructor
  · rintro ⟨a, hmem, rfl⟩
    exact hmem
  · intro h
    exact ⟨"--version", h, rfl⟩

/-- C6: for every schema, an empty token list, or a token list containing
`-h` or `--help` anywhere, makes `Parse` return a true should-exit flag and
no error, regardless of required options or malformed tokens; likewise a
non-empty list containing `--version` and no help token. -/
theorem claim_C6_help_version_short_circuit (p : Parser) (args : List String) :
    ((args = [] ∨ "-h" ∈ args ∨ "--help" ∈ args) →
      p.Parse args = (none, true, none)) ∧
    (args ≠ [] → "-h" ∉ args → "--help" ∉ args → "--version" ∈ args →
      p.Parse args = (none, true, none)) := by
  constructor
  · intro h
    have hc : (args.length == 0 || containsHelpArgument args) = true := by
      rcases h with rfl | h
      · simp
      · simp [containsHelpArgument_iff, h]
    simp [Parser.Parse, hc]
  · intro hne hh1 hh2 hv
    have hc : (args.length == 0 || containsHelpArgument args) = false := by
      simp only [Bool.or_eq_false_iff]
      constructor
      · simp only [beq_eq_false_iff_ne, ne_eq]
        intro h
        exact hne (List.length_eq_zero.mp h)
      · rw [← Bool.not_eq_true, containsHelpArgument_iff]
        rintro (h | h)
        · exact hh1 h
        · exact hh2 h
    have hrv : requestedVersion args = true := (requestedVersion_iff args).mpr hv
    simp [Parser.Parse, hc, hrv]

/-- Witness for C6: a concrete `Parse` call with `-h` and one with
`--version`. -/
theorem claim_C6_help_version_short_circuit_witness :
    sampleParser.Parse ["-h"] = (none, true, none) ∧
    sampleParser.Parse ["--version", "-v"] = (none, true, none) :=
  ⟨(claim_C6_help_version_short_circuit sampleParser ["-h"]).1
      (Or.inr (Or.inl (by simp))),
    (claim_C6_help_version_short_circuit sampleParser ["--version", "-v"]).2
      (by simp) (by simp) (by simp) (by simp)⟩

/-! ### Fatal-error discipline (claim C5) -/

/-- Counterexample to C5 as stated: on input `["-h"]` `Parse` returns a nil
map together with a nil error (the help short-circuit), which fits neither
"a result map with nil error" nor "a nil map with a non-nil error". -/
theorem claim_C5_counterexample :
    sampleParser.Parse ["-h"] = (none, true, none) ∧
    ¬ ((∃ m, (sampleParser.Parse ["-h"]).1 = some m ∧
          (sampleParser.Parse ["-h"]).2.2 = none) ∨
        ((sampleParser.Parse ["-h"]).1 = none ∧
          (sampleParser.Parse ["-h"]).2.2 ≠ none)) := by
  have h : sampleParser.Parse ["-h"] = (none, true, none) := by decide
  refine ⟨h, ?_⟩
  rw [h]
  rintro (⟨m, hm, _⟩ | ⟨_, herr⟩)
  · cases hm
  · exact herr rfl

/-- C5 amended: `Parse` never pairs a non-nil map with a non-nil error: a
non-nil map comes with a nil error and exit flag false, a non-nil error
comes with a nil map and exit flag true, and the remaining case (nil map
and nil error) is exactly the help/version short-circuit, with exit flag
true. -/
theorem claim_C5_fatal_errors (p : Parser) (args : List String) :
    (∀ m, (p.Parse args).1 = some m →
      (p.Parse args).2.2 = none ∧ (p.Parse args).2.1 = false) ∧
    (∀ e, (p.Parse args).2.2 = some e →
      (p.Parse args).1 = none ∧ (p.Parse args).2.1 = true) ∧
    ((p.Parse args).1 = none → (p.Parse args).2.2 = none →
      (p.Parse args).2.1 = true) := by
  unfold Parser.Parse
  split
  · simp
  · split
    · simp
    · split
      · split <;> simp
      · split
        · simp
        · split <;> simp

/-- Witness for C5 amended, at a successful concrete parse. -/
theorem claim_C5_fatal_errors_witness :
    (sampleParser.Parse ["-v"]).2.2 = none ∧ (sampleParser.Parse ["-v"]).2.1 = false :=
  (claim_C5_fatal_errors sampleParser ["-v"]).1
    [("all", .bool false), ("brief", .bool false), ("verbose", .bool true)]
    (by decide)

/-! ### Unknown-argument reporting (claim C2) -/

theorem isPrefixOf_self_append : ∀ (p r : List Char), List.isPrefixOf p (p ++ r) = true
  | [], _ => by simp [List.isPrefixOf]
  | a :: p, r => by simp [List.isPrefixOf, isPrefixOf_self_append p r]

theorem goHasPrefix_append (pre suffix : String) :
    goHasPrefix (pre ++ suffix) pre = true := by
  show List.isPrefixOf pre.data ((pre ++ suffix).data) = true
  rw [String.data_append]
  exact isPrefixOf_self_append _ _

theorem stackedLoop_error_of_unresolved (defs : List Argument) :
    ∀ (chars : List Char),
      (∃ c ∈ chars,
        defs.find? (fun d => d.Short == String.singleton c && d.DataType == "bool") = none) →
      ∃ s, ∀ m : PMap, stackedLoop defs chars m = .error ("unknown argument: -" ++ s)
  | [], h => by simp at h
  | c :: cs, h => by
    cases hf : defs.find? (fun d => d.Short == String.singleton c && d.DataType == "bool") with
    | none => exact ⟨String.singleton c, fun m => by simp [stackedLoop, hf]⟩
    | some d =>
      have h' : ∃ c' ∈ cs,
          defs.find? (fun d => d.Short == String.singleton c' && d.DataType == "bool") = none := by
        obtain ⟨c', hc', hn⟩ := h
        rcases List.mem_cons.mp hc' with rfl | hc'
        · rw [hf] at hn
          cases hn
        · exact ⟨c', hc', hn⟩
      obtain ⟨s, hs⟩ := stackedLoop_error_of_unresolved defs cs h'
      exact ⟨s, fun m => by simp [stackedLoop, hf, hs _]⟩

/-- Counterexample to C2 as stated: with the sample schema and input
`["-v", "bogus"]`, the offending token is `"bogus"` but `Parse` reports
`"unknown argument: -v"` — it names `args[0]`, not the offending token.
Moreover, on `["-c", "bogus"]` the token `"bogus"` matches neither the
stacked pattern nor any definition, yet `Parse` returns no error at all:
the token is consumed as the value of the String option `-c`. -/
theorem claim_C2_counterexample :
    (sampleParser.Parse ["-v", "bogus"]).2.2 = some "unknown argument: -v" ∧
    (sampleParser.Parse ["-v", "bogus"]).2.2 ≠ some "unknown argument: bogus" ∧
    sampleParser.Parse ["-c", "bogus"] =
      (some [("all", .bool false), ("brief", .bool false),
        ("config", .str "bogus"), ("verbose", .bool false)], false, none) := by
  refine ⟨by decide, by decide, by decide⟩

/-- C2 amended: a token matching neither the stacked short-boolean pattern
(some character fails to resolve) nor any definition's flag form makes the
scan — wherever it stands, i.e. from any intermediate map — fail with an
unknown-argument error, but `Parse` rewrites the message to name the FIRST
input token (`args[0]`) rather than the offending token; in particular,
when the first token is the offender the error names exactly that
token. -/
theorem claim_C2_unknown_argument_names_first (p : Parser) (t : String)
    (rest : List String)
    (hh : containsHelpArgument (t :: rest) = false)
    (hv : requestedVersion (t :: rest) = false)
    (hcase : (stackedShape t = true ∧ ∃ c ∈ t.data.drop 1,
        p.args.find? (fun d => d.Short == String.singleton c && d.DataType == "bool") = none) ∨
      (stackedShape t = false ∧ ∀ d ∈ p.args, flagMatches t d = false)) :
    (∃ e, goHasPrefix e "unknown argument" = true ∧
      ∀ m : PMap, parseLoop p.args (t :: rest) m = .error e) ∧
    p.Parse (t :: rest) = (none, true, some ("unknown argument: " ++ t)) := by
  have hc : ((t :: rest).length == 0 || containsHelpArgument (t :: rest)) = false := by
    simp [hh]
  have hmain : ∃ e, goHasPrefix e "unknown argument" = true ∧
      ∀ m : PMap, parseLoop p.args (t :: rest) m = .error e := by
    rcases hcase with ⟨hS, hun⟩ | ⟨hS, hnm⟩
    · obtain ⟨s, hs⟩ := stackedLoop_error_of_unresolved p.args (t.data.drop 1) hun
      refine ⟨"unknown argument: -" ++ s, ?_, fun m => ?_⟩
      · show List.isPrefixOf ("unknown argument".data)
          (("unknown argument: -" ++ s).data) = true
        rw [String.data_append,
          show ("unknown argument: -").data = "unknown argument".data ++ (": -").data from rfl,
          List.append_assoc]
        exact isPrefixOf_self_append _ _
      · rw [parseLoop_cons, if_pos hS, hs m]
    · refine ⟨"unknown argument: " ++ t, ?_, fun m => ?_⟩
      · show List.isPrefixOf ("unknown argument".data)
          (("unknown argument: " ++ t).data) = true
        rw [String.data_append,
          show ("unknown argument: ").data = "unknown argument".data ++ (": ").data from rfl,
          List.append_assoc]
        exact isPrefixOf_self_append _ _
      · have hdl := defLoop_no_match t p.args hnm rest m false
        have hSne : ¬ stackedShape t = true := by simp [hS]
        rw [parseLoop_cons, if_neg hSne, hdl]
        simp
  refine ⟨hmain, ?_⟩
  obtain ⟨e, hpre, hpl⟩ := hmain
  have hpa : parseArguments p.args (t :: rest) [] = .error e := by
    simp only [parseArguments, hpl []]
  simp only [Parser.Parse, hc, Bool.false_eq_true, if_false, hv, hpa, hpre, if_true]
  simp

/-- Witness for C2 amended: the unknown first token `--bogus` is named. -/
theorem claim_C2_unknown_argument_names_first_witness :
    sampleParser.Parse ["--bogus", "-v"] =
      (none, true, some ("unknown argument: " ++ "--bogus")) :=
  (claim_C2_unknown_argument_names_first sampleParser "--bogus" ["-v"]
    (by decide) (by decide)
    (Or.inr ⟨by decide, by decide⟩)).2

/-! ### Default-installation lemmas (claims C3, C4, C10) -/

theorem mapLookup_applyDefaults_of_some {k : String} {v : Value} :
    ∀ (defs : List Argument) (m : PMap), mapLookup k m = some v →
      mapLookup k (applyDefaults defs m) = some v
  | [], _, h => h
  | d :: ds, m, h => by
    simp only [applyDefaults]
    cases hL : mapLookup d.Name m with
    | some w => exact mapLookup_applyDefaults_of_some ds m h
    | none =>
      have hk : k ≠ d.Name := by
        rintro rfl
        rw [h] at hL
        cases hL
      cases defaultFor d with
      | some w =>
        exact mapLookup_applyDefaults_of_some ds _
          (by rw [mapLookup_mapInsert_ne hk]; exact h)
      | none => exact mapLookup_applyDefaults_of_some ds m h

theorem isSome_mapLookup_applyDefaults :
    ∀ (defs : List Argument) (d : Argument), d ∈ defs →
      (d.DataType = "bool" ∨ d.DefaultValue ≠ none) →
      ∀ m : PMap, (mapLookup d.Name (applyDefaults defs m)).isSome = true
  | [], d, hd, _, _ => absurd hd (List.not_mem_nil d)
  | d₀ :: ds, d, hd, hkind, m => by
    rcases List.mem_cons.mp hd with rfl | hd'
    · have hDf : ∃ w, defaultFor d = some w := by
        rcases hkind with hB | hNd
        · cases hD : d.DefaultValue with
          | some w => exact ⟨w, by simp [defaultFor, hD]⟩
          | none => exact ⟨.bool false, by simp [defaultFor, hD, hB]⟩
        · cases hD : d.DefaultValue with
          | some w => exact ⟨w, by simp [defaultFor, hD]⟩
          | none => exact absurd hD hNd
      obtain ⟨w, hDf⟩ := hDf
      simp only [applyDefaults]
      cases hL : mapLookup d.Name m with
      | some u => rw [mapLookup_applyDefaults_of_some ds m hL]; rfl
      | none =>
        rw [hDf]
        rw [mapLookup_applyDefaults_of_some ds _ (mapLookup_mapInsert_self _ _ m)]
        rfl
    · simp only [applyDefaults]
      cases mapLookup d₀.Name m with
      | some w => exact isSome_mapLookup_applyDefaults ds d hd' hkind m
      | none =>
        cases defaultFor d₀ with
        | some w => exact isSome_mapLookup_applyDefaults ds d hd' hkind _
        | none => exact isSome_mapLookup_applyDefaults ds d hd' hkind m

theorem applyDefaults_preserve_notin (k : String) :
    ∀ (ds : List Argument), (∀ d ∈ ds, d.Name ≠ k) →
      ∀ m : PMap, mapLookup k (applyDefaults ds m) = mapLookup k m
  | [], _, _ => rfl
  | d₀ :: ds, h, m => by
    have hne : k ≠ d₀.Name := Ne.symm (h d₀ (List.mem_cons_self d₀ ds))
    have htail : ∀ d ∈ ds, d.Name ≠ k :=
      fun d hd => h d (List.mem_cons_of_mem d₀ hd)
    simp only [applyDefaults]
    cases mapLookup d₀.Name m with
    | some w => exact applyDefaults_preserve_notin k ds htail m
    | none =>
      cases defaultFor d₀ with
      | some w =>
        rw [applyDefaults_preserve_notin k ds htail, mapLookup_mapInsert_ne hne]
      | none => exact applyDefaults_preserve_notin k ds htail m

theorem mapLookup_applyDefaults_absent :
    ∀ (defs : List Argument), (defs.map Argument.Name).Nodup →
      ∀ d : Argument, d ∈ defs →
      ∀ m : PMap, mapLookup d.Name m = none →
      mapLookup d.Name (applyDefaults defs m) = defaultFor d
  | [], _, d, hd, _, _ => absurd hd (List.not_mem_nil d)
  | d₀ :: ds, hnodup, d, hd, m, habs => by
    simp only [List.map_cons, List.nodup_cons] at hnodup
    rcases List.mem_cons.mp hd with rfl | hd'
    · have hnotin : ∀ d' ∈ ds, d'.Name ≠ d.Name := by
        intro d' hd' he
        exact hnodup.1 (he ▸ List.mem_map_of_mem Argument.Name hd')
      simp only [applyDefaults, habs]
      cases hDf : defaultFor d with
      | some w =>
        rw [applyDefaults_preserve_notin _ ds hnotin, mapLookup_mapInsert_self]
      | none =>
        rw [applyDefaults_preserve_notin _ ds hnotin, habs]
    · have hne : d.Name ≠ d₀.Name := by
        intro he
        exact hnodup.1 (he ▸ List.mem_map_of_mem Argument.Name hd')
      simp only [applyDefaults]
      cases mapLookup d₀.Name m with
      | some w => exact mapLookup_applyDefaults_absent ds hnodup.2 d hd' m habs
      | none =>
        cases defaultFor d₀ with
        | some w =>
          exact mapLookup_applyDefaults_absent ds hnodup.2 d hd' _
            (by rw [mapLookup_mapInsert_ne hne]; exact habs)
        | none => exact mapLookup_applyDefaults_absent ds hnodup.2 d hd' m habs

/-- Inversion: a successful `Parse` result map is the scan result with
defaults installed. -/
theorem Parse_some_inv (p : Parser) (args : List String) (m : PMap)
    (h : (p.Parse args).1 = some m) :
    ∃ m₀, parseLoop p.args args [] = .ok m₀ ∧ m = applyDefaults p.args m₀ ∧
      p.validateExclusiveGroups (applyDefaults p.args m₀) = none := by
  unfold Parser.Parse at h
  by_cases h1 : (args.length == 0 || containsHelpArgument args) = true
  · rw [if_pos h1] at h
    exact Option.noConfusion h
  · rw [if_neg h1] at h
    by_cases h2 : requestedVersion args = true
    · rw [if_pos h2] at h
      exact Option.noConfusion h
    · rw [if_neg h2] at h
      cases hL : parseLoop p.args args [] with
      | error e =>
        have hE : parseArguments p.args args [] = .error e := by
          simp only [parseArguments, hL]
        rw [hE] at h
        have h' : (if goHasPrefix e "unknown argument" = true
            then ((none : Option PMap), true,
              some ("unknown argument: " ++ args.headD ""))
            else ((none : Option PMap), true, some e)).1 = some m := h
        by_cases h3 : goHasPrefix e "unknown argument" = true
        · rw [if_pos h3] at h'
          exact Option.noConfusion h'
        · rw [if_neg h3] at h'
          exact Option.noConfusion h'
      | ok m₀ =>
        have hE : parseArguments p.args args [] = .ok (applyDefaults p.args m₀) := by
          simp only [parseArguments, hL]
        rw [hE] at h
        have h' : (match firstMissingRequired p.args (applyDefaults p.args m₀) with
            | some d => ((none : Option PMap), true,
                some ("missing required global argument: " ++ d.Name))
            | none =>
              match p.validateExclusiveGroups (applyDefaults p.args m₀) with
              | some e => ((none : Option PMap), true, some e)
              | none => (some (applyDefaults p.args m₀), false,
                  (none : Option String))).1 = some m := h
        cases hR : firstMissingRequired p.args (applyDefaults p.args m₀) with
        | some d =>
          rw [hR] at h'
          exact Option.noConfusion h'
        | none =>
          rw [hR] at h'
          cases hV : p.validateExclusiveGroups (applyDefaults p.args m₀) with
          | some e =>
            rw [hV] at h'
            exact Option.noConfusion h'
          | none =>
            rw [hV] at h'
            exact ⟨m₀, rfl, (Option.some.inj h').symm, hV⟩

/-- Counterexample to C3 as stated: `config` is an optional String option
with no declared default; after the successful parse of `["-v"]` the
result map does not contain the key `config` at all — the kind zero-value
(empty string) is not installed.  Only Bool options receive a zero-value. -/
theorem claim_C3_counterexample :
    sampleParser.Parse ["-v"] =
      (some [("all", .bool false), ("brief", .bool false), ("verbose", .bool true)],
        false, none) ∧
    mapLookup "config"
      [("all", .bool false), ("brief", .bool false), ("verbose", .bool true)] = none ∧
    configArg ∈ sampleParser.args ∧ configArg.Required = false ∧
    configArg.DefaultValue = none ∧ configArg.Name = "config" ∧
    configArg.DataType = "string" := by
  refine ⟨by decide, by decide, by decide, by decide, by decide, by decide, by decide⟩

/-- C3 amended: after the scan, an absent option receives its declared
default when one is declared, else `false` when its kind is `"bool"`, and
otherwise it remains absent from the map (no zero-value is installed for
Int, String or StringList); in particular every Bool-kind or defaulted
declared option is a key of any successfully returned map, but other
absent optionals are not. -/
theorem claim_C3_defaults_and_zero_values :
    (∀ (defs : List Argument) (d : Argument), (defs.map Argument.Name).Nodup →
      d ∈ defs → ∀ m : PMap, mapLookup d.Name m = none →
      mapLookup d.Name (applyDefaults defs m) = defaultFor d) ∧
    (∀ (p : Parser) (args : List String) (m : PMap) (d : Argument),
      (p.Parse args).1 = some m → d ∈ p.args →
      (d.DataType = "bool" ∨ d.DefaultValue ≠ none) →
      (mapLookup d.Name m).isSome = true) := by
  constructor
  · intro defs d hnodup hd m habs
    exact mapLookup_applyDefaults_absent defs hnodup d hd m habs
  · intro p args m d hp hd hkind
    obtain ⟨m₀, _, hm, _⟩ := Parse_some_inv p args m hp
    rw [hm]
    exact isSome_mapLookup_applyDefaults p.args d hd hkind m₀

/-- Witness for C3 amended: `config` (String, no default) stays absent
while `verbose` (Bool) is present after a successful parse. -/
theorem claim_C3_defaults_and_zero_values_witness :
    mapLookup "config" (applyDefaults sampleParser.args [("verbose", .bool true)]) =
      defaultFor configArg ∧
    (mapLookup "verbose"
      [("all", .bool false), ("brief", .bool false), ("verbose", .bool true)]).isSome = true :=
  ⟨by
    have h := claim_C3_defaults_and_zero_values.1 sampleParser.args configArg
      (by decide) (by decide) [("verbose", .bool true)] (by decide)
    exact h,
  claim_C3_defaults_and_zero_values.2 sampleParser ["-v"]
    [("all", .bool false), ("brief", .bool false), ("verbose", .bool true)]
    verboseArg (by decide) (by decide) (Or.inl (by decide))⟩

/-- Counterexample to C4 as stated: `reqDefParser` declares `config` as
required with default `"a.yaml"` — `AddArgument` accepts this combination
(no schema-build rejection) — and on input `["-v"]`, where `config` is
matched by no token, `Parse` succeeds with the default installed instead
of returning a MissingRequired error: the default takes precedence over
`required`. -/
theorem claim_C4_counterexample :
    reqDefParser.args = [verboseArg,
      ⟨"config", "c", "config", "Path to config file", "string",
        some (.str "a.yaml"), true⟩] ∧
    reqDefParser.Parse ["-v"] =
      (some [("config", .str "a.yaml"), ("verbose", .bool true)], false, none) := by
  refine ⟨by decide, by decide⟩

/-- C4 amended: if the scan succeeds and some definition is required,
lacks a declared default, is not of kind `"bool"`, and was matched by no
token, then `Parse` fails with a missing-required error naming the first
such option; but a required definition with a declared default (or of
Bool kind) is satisfied by the installed default and is never the option
the required-check reports — `required` does not take precedence, and
`AddArgument` performs no schema-build-time rejection. -/
theorem claim_C4_missing_required (p : Parser) (args : List String)
    (m₀ : PMap) (d₀ : Argument)
    (hargs : args ≠ [])
    (hh : containsHelpArgument args = false)
    (hv : requestedVersion args = false)
    (hnodup : (p.args.map Argument.Name).Nodup)
    (hscan : parseLoop p.args args [] = .ok m₀)
    (hfind : p.args.find? (fun d => d.Required && d.DefaultValue.isNone &&
        !(d.DataType == "bool") && (mapLookup d.Name m₀).isNone) = some d₀) :
    p.Parse args = (none, true,
      some ("missing required global argument: " ++ d₀.Name)) ∧
    (∀ d ∈ p.args, (d.DataType = "bool" ∨ d.DefaultValue ≠ none) →
      firstMissingRequired p.args (applyDefaults p.args m₀) ≠ some d) := by
  refine ⟨?_, ?_⟩
  case refine_2 =>
    intro d hd hkind heq
    have hpred := List.find?_some heq
    simp only [Bool.and_eq_true, Option.isNone_iff_eq_none] at hpred
    have hsome := isSome_mapLookup_applyDefaults p.args d hd hkind m₀
    rw [hpred.2] at hsome
    cases hsome
  have hfmr : firstMissingRequired p.args (applyDefaults p.args m₀) = some d₀ := by
    rw [firstMissingRequired,
      find?_congr_mem _ (fun d => d.Required && d.DefaultValue.isNone &&
        !(d.DataType == "bool") && (mapLookup d.Name m₀).isNone) p.args ?_]
    · exact hfind
    · intro d hd
      cases hL : mapLookup d.Name m₀ with
      | some v =>
        rw [mapLookup_applyDefaults_of_some p.args m₀ hL]
        simp [hL]
      | none =>
        rw [mapLookup_applyDefaults_absent p.args hnodup d hd m₀ hL]
        cases hD : d.DefaultValue with
        | some w => simp [defaultFor, hD]
        | none =>
          by_cases hB : d.DataType = "bool"
          · simp [defaultFor, hD, hB, hL]
          · simp [defaultFor, hD, hB, hL]
  have hc : (args.length == 0 || containsHelpArgument args) = false := by
    simp only [Bool.or_eq_false_iff]
    exact ⟨by simpa using fun h => hargs (List.length_eq_zero.mp h), hh⟩
  have hpa : parseArguments p.args args [] = .ok (applyDefaults p.args m₀) := by
    simp only [parseArguments, hscan]
  simp only [Parser.Parse, hc, Bool.false_eq_true, if_false, hv, hpa, hfmr]

/-- Witness for C4 amended: with required `input` (String, no default)
unmatched, `Parse` reports it. -/
theorem claim_C4_missing_required_witness :
    reqInputParser.Parse ["-v"] =
      (none, true, some ("missing required global argument: " ++ "input")) :=
  (claim_C4_missing_required reqInputParser ["-v"] [("verbose", .bool true)]
    requiredInputArg (by decide) (by decide) (by decide) (by decide)
    (by rfl) (by decide)).1

/-! ### Single-flag value consumption (claims C7, C8, C9) -/

theorem flagMatches_dash {t : String} {d : Argument}
    (h : flagMatches t d = true) : goHasPrefix t "-" = true := by
  simp only [flagMatches, Bool.or_eq_true, beq_iff_eq] at h
  rcases h with rfl | rfl
  · show List.isPrefixOf ['-'] (("-" ++ d.Short).data) = true
    rw [dash_append_data]
    simp [List.isPrefixOf]
  · show List.isPrefixOf ['-'] (("--" ++ d.Long).data) = true
    rw [ddash_append_data]
    simp [List.isPrefixOf]

theorem not_prefix_of_ne_head {a b : Char} (ha : a ≠ b) (as bs : List Char) :
    List.isPrefixOf (a :: as) (b :: bs) = false := by
  simp [List.isPrefixOf, ha]

theorem noValue_not_unknown (t : String) :
    goHasPrefix ("no value provided for argument " ++ t) "unknown argument" = false := by
  show List.isPrefixOf ("unknown argument".data)
    (("no value provided for argument " ++ t).data) = false
  rw [String.data_append,
    show ("unknown argument").data = 'u' :: ("nknown argument").data from rfl,
    show ("no value provided for argument ").data =
      'n' :: ("o value provided for argument ").data from rfl,
    List.cons_append]
  exact not_prefix_of_ne_head (by decide) _ _

theorem defLoop_missing_value (t : String) (d : Argument) (ds₂ : List Argument)
    (hmatch : flagMatches t d = true) (hnb : d.DataType ≠ "bool")
    (rest : List String) (hboundary : dashBoundary rest = true)
    (m : PMap) (found : Bool) :
    defLoop t (d :: ds₂) rest m found =
      .error ("no value provided for argument " ++ t) := by
  have hnb' : (d.DataType == "bool") = false := by simp [hnb]
  cases rest with
  | nil => simp [defLoop, hmatch, hnb']
  | cons v rest' =>
    simp only [dashBoundary] at hboundary
    simp [defLoop, hmatch, hnb', hboundary]

/-- C7: a non-Bool option matched by a flag token whose following token is
missing or itself starts with `-` makes the scan — wherever it stands,
i.e. from any intermediate map — and hence `Parse` fail with a
missing-value error naming the literal flag text (so a `-`-initial token
such as a negative number is never consumed as a value). -/
theorem claim_C7_missing_value (p : Parser) (t : String) (rest : List String)
    (ds₁ ds₂ : List Argument) (d : Argument)
    (hsplit : p.args = ds₁ ++ d :: ds₂)
    (hno₁ : ∀ d' ∈ ds₁, flagMatches t d' = false)
    (hmatch : flagMatches t d = true)
    (hnb : d.DataType ≠ "bool")
    (hshape : stackedShape t = false)
    (hboundary : dashBoundary rest = true)
    (hh : containsHelpArgument (t :: rest) = false)
    (hv : requestedVersion (t :: rest) = false) :
    (∀ m : PMap, parseLoop p.args (t :: rest) m =
      .error ("no value provided for argument " ++ t)) ∧
    p.Parse (t :: rest) =
      (none, true, some ("no value provided for argument " ++ t)) := by
  have hc : ((t :: rest).length == 0 || containsHelpArgument (t :: rest)) = false := by
    simp [hh]
  have hpl : ∀ m : PMap, parseLoop p.args (t :: rest) m =
      .error ("no value provided for argument " ++ t) := by
    intro m
    have hdl : defLoop t p.args rest m false =
        .error ("no value provided for argument " ++ t) := by
      rw [hsplit, defLoop_skip t ds₁ hno₁]
      exact defLoop_missing_value t d ds₂ hmatch hnb rest hboundary m false
    rw [parseLoop_cons, if_neg (by simp [hshape]), hdl]
  refine ⟨hpl, ?_⟩
  have hpa : parseArguments p.args (t :: rest) [] =
      .error ("no value provided for argument " ++ t) := by
    simp only [parseArguments, hpl []]
  simp only [Parser.Parse, hc, Bool.false_eq_true, if_false, hv, hpa,
    noValue_not_unknown t, if_false]

/-- Witness for C7: `-c` (String kind) followed by `-5` — the negative
number is not consumed, and the error names `-c`. -/
theorem claim_C7_missing_value_witness :
    sampleParser.Parse ["-c", "-5"] =
      (none, true, some ("no value provided for argument " ++ "-c")) :=
  (claim_C7_missing_value sampleParser "-c" ["-5"]
    [verboseArg, allArg, briefArg] [retryArg, manyArg] configArg
    (by decide) (by decide) (by decide) (by decide) (by decide)
    (by decide) (by decide) (by decide)).2

theorem defLoop_list_capture (t : String) (d : Argument) (ds₂ : List Argument)
    (hmatch : flagMatches t d = true) (hkind : d.DataType = "[]string")
    (hno₂ : ∀ d' ∈ ds₂, flagMatches t d' = false)
    (v : String) (vs' : List String) (post : List String)
    (hv : goHasPrefix v "-" = false)
    (hvs : vs'.all (fun x => !goHasPrefix x "-") = true)
    (hpost : dashBoundary post = true) (m : PMap) (found : Bool) :
    defLoop t (d :: ds₂) ((v :: vs') ++ post) m found =
      .ok (post, mapInsert d.Name (.list (v :: vs')) m, true) := by
  have hkb : (d.DataType == "bool") = false := by simp [hkind]
  have hki : (d.DataType == "int") = false := by simp [hkind]
  have hks : (d.DataType == "string") = false := by simp [hkind]
  have hkl : (d.DataType == "[]string") = true := by simp [hkind]
  have hg : greedyConsume [v] (vs' ++ post) = ([v] ++ vs', post) :=
    greedyConsume_clean hpost vs' [v] hvs
  simp only [List.cons_append, defLoop, hmatch, if_true, hkb,
    Bool.false_eq_true, if_false, hv, hki, hks, hkl, hg]
  exact defLoop_no_match t ds₂ hno₂ post _ true

/-- C9: a StringList option matched at the head of the scan, followed by
value tokens `vs` (none starting with `-`) and then end of input or a
flag-like token, captures exactly the sequence `vs` in order; the scan
resumes right after it. -/
theorem claim_C9_stringlist_capture (defs : List Argument) (t : String)
    (ds₁ ds₂ : List Argument) (d : Argument)
    (hsplit : defs = ds₁ ++ d :: ds₂)
    (hno₁ : ∀ d' ∈ ds₁, flagMatches t d' = false)
    (hmatch : flagMatches t d = true)
    (hno₂ : ∀ d' ∈ ds₂, flagMatches t d' = false)
    (hkind : d.DataType = "[]string")
    (hshape : stackedShape t = false)
    (v : String) (vs' : List String) (post : List String)
    (hv : goHasPrefix v "-" = false)
    (hvs : vs'.all (fun x => !goHasPrefix x "-") = true)
    (hpost : dashBoundary post = true) (m : PMap) :
    parseLoop defs (t :: ((v :: vs') ++ post)) m =
      parseLoop defs post (mapInsert d.Name (.list (v :: vs')) m) := by
  have hdl : defLoop t defs ((v :: vs') ++ post) m false =
      .ok (post, mapInsert d.Name (.list (v :: vs')) m, true) := by
    rw [hsplit, defLoop_skip t ds₁ hno₁]
    exact defLoop_list_capture t d ds₂ hmatch hkind hno₂ v vs' post hv hvs hpost m false
  rw [parseLoop_cons, if_neg (by simp [hshape]), hdl]
  simp

/-- Witness for C9: `-m x y z` at end of input captures `["x","y","z"]`. -/
theorem claim_C9_stringlist_capture_witness :
    parseLoop sampleParser.args ["-m", "x", "y", "z"] [] =
      parseLoop sampleParser.args []
        (mapInsert "many" (.list ["x", "y", "z"]) []) :=
  claim_C9_stringlist_capture sampleParser.args "-m"
    [verboseArg, allArg, briefArg, configArg, retryArg] [] manyArg
    (by decide) (by decide) (by decide) (by decide) (by decide) (by decide)
    "x" ["y", "z"] [] (by decide) (by decide) (by decide) []

theorem defLoop_string_capture (t : String) (d : Argument) (ds₂ : List Argument)
    (hmatch : flagMatches t d = true) (hkind : d.DataType = "string")
    (hno₂ : ∀ d' ∈ ds₂, flagMatches t d' = false)
    (v : String) (rest' : List String) (hv : goHasPrefix v "-" = false)
    (m : PMap) (found : Bool) :
    defLoop t (d :: ds₂) (v :: rest') m found =
      .ok (rest', mapInsert d.Name (.str v) m, true) := by
  have hkb : (d.DataType == "bool") = false := by simp [hkind]
  have hki : (d.DataType == "int") = false := by simp [hkind]
  have hks : (d.DataType == "string") = true := by simp [hkind]
  simp only [defLoop, hmatch, if_true, hkb, Bool.false_eq_true, if_false,
    hv, hki, hks]
  exact defLoop_no_match t ds₂ hno₂ rest' _ true

theorem defLoop_int_capture (t : String) (d : Argument) (ds₂ : List Argument)
    (hmatch : flagMatches t d = true) (hkind : d.DataType = "int")
    (hno₂ : ∀ d' ∈ ds₂, flagMatches t d' = false)
    (v : String) (n : Int) (rest' : List String)
    (hv : goHasPrefix v "-" = false) (hA : goAtoi v = some n)
    (m : PMap) (found : Bool) :
    defLoop t (d :: ds₂) (v :: rest') m found =
      .ok (rest', mapInsert d.Name (.int n) m, true) := by
  have hkb : (d.DataType == "bool") = false := by simp [hkind]
  have hki : (d.DataType == "int") = true := by simp [hkind]
  simp only [defLoop, hmatch, if_true, hkb, Bool.false_eq_true, if_false,
    hv, hki, hA]
  exact defLoop_no_match t ds₂ hno₂ rest' _ true

theorem defLoop_bool_break (t : String) (d : Argument) (ds₂ : List Argument)
    (hmatch : flagMatches t d = true) (hkind : d.DataType = "bool")
    (rest : List String) (m : PMap) (found : Bool) :
    defLoop t (d :: ds₂) rest m found =
      .ok (rest, mapInsert d.Name (.bool true) m, true) := by
  simp [defLoop, hmatch, hkind]

/-- One scan step for a non-stacked matched token. -/
theorem parseLoop_step (defs : List Argument) (t : String)
    (rest rest' : List String) (m m' : PMap)
    (hshape : stackedShape t = false)
    (hE : defLoop t defs rest m false = .ok (rest', m', true)) :
    parseLoop defs (t :: rest) m = parseLoop defs rest' m' := by
  rw [parseLoop_cons, if_neg (by simp [hshape]), hE]
  simp

/-- `defLoop` never reads the map: its outcome is either an error
independent of the initial map, or a fixed sequence of inserts applied to
the initial map, with fixed remaining tokens and found flag. -/
theorem defLoop_generic (arg : String) :
    ∀ (ds : List Argument) (rest : List String) (found : Bool),
      (∃ e, ∀ m : PMap, defLoop arg ds rest m found = .error e) ∨
      (∃ (L : List (String × Value)) (r : List String) (f : Bool),
        ∀ m : PMap, defLoop arg ds rest m found = .ok (r, foldIns L m, f))
  | [], rest, found => Or.inr ⟨[], rest, found, fun _ => rfl⟩
  | d :: ds, rest, found => by
    by_cases hm : flagMatches arg d = true
    · by_cases hb : (d.DataType == "bool") = true
      · exact Or.inr ⟨[(d.Name, .bool true)], rest, true,
          fun m => by simp [defLoop, hm, hb, foldIns]⟩
      · cases rest with
        | nil => exact Or.inl ⟨"no value provided for argument " ++ arg,
            fun m => by simp [defLoop, hm, hb]⟩
        | cons v rest' =>
          by_cases hv : goHasPrefix v "-" = true
          · exact Or.inl ⟨"no value provided for argument " ++ arg,
              fun m => by simp [defLoop, hm, hb, hv]⟩
          · by_cases hki : (d.DataType == "int") = true
            · cases hA : goAtoi v with
              | none =>
                exact Or.inl ⟨"invalid value for argument \x27" ++ d.Name ++
                    "\x27: expected an integer",
                  fun m => by simp [defLoop, hm, hb, hv, hki, hA]⟩
              | some n =>
                rcases defLoop_generic arg ds rest' true with ⟨e, he⟩ | ⟨L, r, f, hok⟩
                · exact Or.inl ⟨e, fun m => by simp [defLoop, hm, hb, hv, hki, hA, he]⟩
                · exact Or.inr ⟨(d.Name, .int n) :: L, r, f,
                    fun m => by simp [defLoop, hm, hb, hv, hki, hA, hok, foldIns]⟩
            · by_cases hks : (d.DataType == "string") = true
              · rcases defLoop_generic arg ds rest' true with ⟨e, he⟩ | ⟨L, r, f, hok⟩
                · exact Or.inl ⟨e, fun m => by simp [defLoop, hm, hb, hv, hki, hks, he]⟩
                · exact Or.inr ⟨(d.Name, .str v) :: L, r, f,
                    fun m => by simp [defLoop, hm, hb, hv, hki, hks, hok, foldIns]⟩
              · by_cases hkl : (d.DataType == "[]string") = true
                · rcases defLoop_generic arg ds (greedyConsume [v] rest').2 true with
                    ⟨e, he⟩ | ⟨L, r, f, hok⟩
                  · exact Or.inl ⟨e,
                      fun m => by simp [defLoop, hm, hb, hv, hki, hks, hkl, he]⟩
                  · exact Or.inr ⟨(d.Name, .list (greedyConsume [v] rest').1) :: L, r, f,
                      fun m => by simp [defLoop, hm, hb, hv, hki, hks, hkl, hok, foldIns]⟩
                · exact Or.inl ⟨"unknown data type \x27" ++ d.DataType ++
                      "\x27 for argument \x27" ++ d.Name ++ "\x27",
                    fun m => by simp [defLoop, hm, hb, hv, hki, hks, hkl]⟩
    · rcases defLoop_generic arg ds rest found with ⟨e, he⟩ | ⟨L, r, f, hok⟩
      · exact Or.inl ⟨e, fun m => by simp [defLoop, hm, he]⟩
      · exact Or.inr ⟨L, r, f, fun m => by simp [defLoop, hm, hok]⟩

/-- The found flag is never reset: a scan entered with `found = true`
returns `found = true`. -/
theorem defLoop_found_true (arg : String) :
    ∀ (ds : List Argument) (rest : List String) (m : PMap)
      (r : List String) (m' : PMap) (f : Bool),
      defLoop arg ds rest m true = .ok (r, m', f) → f = true
  | [], rest, m, r, m', f, h => by
    simp only [defLoop] at h
    cases h
    rfl
  | d :: ds, rest, m, r, m', f, h => by
    simp only [defLoop] at h
    split at h
    · split at h
      · cases h
        rfl
      · cases rest with
        | nil => cases h
        | cons v rest₀ =>
          simp only at h
          split at h
          · cases h
          · split at h
            · split at h
              · exact defLoop_found_true arg ds rest₀ _ r m' f h
              · cases h
            · split at h
              · exact defLoop_found_true arg ds rest₀ _ r m' f h
              · split at h
                · exact defLoop_found_true arg ds _ _ r m' f h
                · cases h
    · exact defLoop_found_true arg ds rest m r m' f h

/-- Like `defLoop_generic`, but for a list headed by a matching definition:
the first installed value is at the matched definition's name, and the
found flag ends up true. -/
theorem defLoop_head_shift (arg : String) (d : Argument) (ds₂ : List Argument)
    (hmatch : flagMatches arg d = true) (rest : List String) :
    (∃ e, ∀ m : PMap, defLoop arg (d :: ds₂) rest m false = .error e) ∨
    (∃ (V : Value) (L : List (String × Value)) (r : List String),
      ∀ m : PMap, defLoop arg (d :: ds₂) rest m false =
        .ok (r, foldIns L (mapInsert d.Name V m), true)) := by
  by_cases hb : (d.DataType == "bool") = true
  · exact Or.inr ⟨.bool true, [], rest,
      fun m => by simp [defLoop, hmatch, hb, foldIns]⟩
  · cases rest with
    | nil => exact Or.inl ⟨"no value provided for argument " ++ arg,
        fun m => by simp [defLoop, hmatch, hb]⟩
    | cons v rest' =>
      by_cases hv : goHasPrefix v "-" = true
      · exact Or.inl ⟨"no value provided for argument " ++ arg,
          fun m => by simp [defLoop, hmatch, hb, hv]⟩
      · by_cases hki : (d.DataType == "int") = true
        · cases hA : goAtoi v with
          | none =>
            exact Or.inl ⟨"invalid value for argument \x27" ++ d.Name ++
                "\x27: expected an integer",
              fun m => by simp [defLoop, hmatch, hb, hv, hki, hA]⟩
          | some n =>
            rcases defLoop_generic arg ds₂ rest' true with ⟨e, he⟩ | ⟨L, r, f, hok⟩
            · exact Or.inl ⟨e, fun m => by simp [defLoop, hmatch, hb, hv, hki, hA, he]⟩
            · have hf : f = true :=
                defLoop_found_true arg ds₂ rest' [] r (foldIns L []) f (hok [])
              subst hf
              exact Or.inr ⟨.int n, L, r,
                fun m => by simp [defLoop, hmatch, hb, hv, hki, hA, hok, foldIns]⟩
        · by_cases hks : (d.DataType == "string") = true
          · rcases defLoop_generic arg ds₂ rest' true with ⟨e, he⟩ | ⟨L, r, f, hok⟩
            · exact Or.inl ⟨e, fun m => by simp [defLoop, hmatch, hb, hv, hki, hks, he]⟩
            · have hf : f = true :=
                defLoop_found_true arg ds₂ rest' [] r (foldIns L []) f (hok [])
              subst hf
              exact Or.inr ⟨.str v, L, r,
                fun m => by simp [defLoop, hmatch, hb, hv, hki, hks, hok, foldIns]⟩
          · by_cases hkl : (d.DataType == "[]string") = true
            · rcases defLoop_generic arg ds₂ (greedyConsume [v] rest').2 true with
                ⟨e, he⟩ | ⟨L, r, f, hok⟩
              · exact Or.inl ⟨e,
                  fun m => by simp [defLoop, hmatch, hb, hv, hki, hks, hkl, he]⟩
              · have hf : f = true :=
                  defLoop_found_true arg ds₂ (greedyConsume [v] rest').2 []
                    r (foldIns L []) f (hok [])
                subst hf
                exact Or.inr ⟨.list (greedyConsume [v] rest').1, L, r,
                  fun m => by simp [defLoop, hmatch, hb, hv, hki, hks, hkl, hok, foldIns]⟩
            · exact Or.inl ⟨"unknown data type \x27" ++ d.DataType ++
                  "\x27 for argument \x27" ++ d.Name ++ "\x27",
                fun m => by simp [defLoop, hmatch, hb, hv, hki, hks, hkl]⟩

/-- Re-matching the same unique flag overwrites whatever the name was
previously bound to: a prior binding at the matched definition's name is
invisible in the final outcome. -/
theorem parseLoop_overwrite (defs : List Argument) (t : String)
    (ds₁ ds₂ : List Argument) (d : Argument)
    (hsplit : defs = ds₁ ++ d :: ds₂)
    (hno₁ : ∀ d' ∈ ds₁, flagMatches t d' = false)
    (hmatch : flagMatches t d = true)
    (hshape : stackedShape t = false)
    (X : Value) (rest : List String) (m : PMap) :
    parseLoop defs (t :: rest) (mapInsert d.Name X m) =
      parseLoop defs (t :: rest) m := by
  subst hsplit
  have hS' : ¬ stackedShape t = true := by simp [hshape]
  rcases defLoop_head_shift t d ds₂ hmatch rest with ⟨e, he⟩ | ⟨V, L, r, hok⟩
  · simp only [parseLoop_cons, if_neg hS', defLoop_skip t ds₁ hno₁, he]
  · simp only [parseLoop_cons, if_neg hS', defLoop_skip t ds₁ hno₁, hok]
    rw [mapInsert_mapInsert_self]

/-- C8: when an option is matched more than once, the last match wins: a
prior binding of the option's name (whatever value an earlier match
stored) is invisible once the flag re-matches, and concretely — for
scalar kinds (String, Int) and for StringList (the last complete capture,
not a concatenation) — repeating the flag-and-values group is equivalent
to passing only the last occurrence; a repeated Bool flag is identical to
passing it once. -/
theorem claim_C8_last_match_wins :
    (∀ (defs : List Argument) (t : String) (ds₁ ds₂ : List Argument)
      (d : Argument) (X : Value) (rest : List String) (m : PMap),
      defs = ds₁ ++ d :: ds₂ → (∀ d' ∈ ds₁, flagMatches t d' = false) →
      flagMatches t d = true → stackedShape t = false →
      parseLoop defs (t :: rest) (mapInsert d.Name X m) =
        parseLoop defs (t :: rest) m) ∧
    (∀ (defs : List Argument) (t : String) (ds₁ ds₂ : List Argument)
      (d : Argument) (v₁ v₂ : String) (post : List String) (m : PMap),
      defs = ds₁ ++ d :: ds₂ → (∀ d' ∈ ds₁, flagMatches t d' = false) →
      flagMatches t d = true → (∀ d' ∈ ds₂, flagMatches t d' = false) →
      stackedShape t = false → d.DataType = "string" →
      goHasPrefix v₁ "-" = false →
      parseLoop defs (t :: v₁ :: t :: v₂ :: post) m =
        parseLoop defs (t :: v₂ :: post) m) ∧
    (∀ (defs : List Argument) (t : String) (ds₁ ds₂ : List Argument)
      (d : Argument) (v₁ : String) (n₁ : Int) (v₂ : String)
      (post : List String) (m : PMap),
      defs = ds₁ ++ d :: ds₂ → (∀ d' ∈ ds₁, flagMatches t d' = false) →
      flagMatches t d = true → (∀ d' ∈ ds₂, flagMatches t d' = false) →
      stackedShape t = false → d.DataType = "int" →
      goHasPrefix v₁ "-" = false → goAtoi v₁ = some n₁ →
      parseLoop defs (t :: v₁ :: t :: v₂ :: post) m =
        parseLoop defs (t :: v₂ :: post) m) ∧
    (∀ (defs : List Argument) (t : String) (ds₁ ds₂ : List Argument)
      (d : Argument) (v : String) (vs' rest₂ : List String) (m : PMap),
      defs = ds₁ ++ d :: ds₂ → (∀ d' ∈ ds₁, flagMatches t d' = false) →
      flagMatches t d = true → (∀ d' ∈ ds₂, flagMatches t d' = false) →
      stackedShape t = false → d.DataType = "[]string" →
      goHasPrefix v "-" = false →
      vs'.all (fun x => !goHasPrefix x "-") = true →
      parseLoop defs (t :: ((v :: vs') ++ t :: rest₂)) m =
        parseLoop defs (t :: rest₂) m) ∧
    (∀ (defs : List Argument) (t : String) (ds₁ ds₂ : List Argument)
      (d : Argument) (post : List String) (m : PMap),
      defs = ds₁ ++ d :: ds₂ → (∀ d' ∈ ds₁, flagMatches t d' = false) →
      flagMatches t d = true → d.DataType = "bool" → stackedShape t = false →
      parseLoop defs (t :: t :: post) m = parseLoop defs (t :: post) m) := by
  refine ⟨?_, ?_, ?_, ?_, ?_⟩
  · intro defs t ds₁ ds₂ d X rest m hsplit hno₁ hmatch hshape
    exact parseLoop_overwrite defs t ds₁ ds₂ d hsplit hno₁ hmatch hshape X rest m
  · intro defs t ds₁ ds₂ d v₁ v₂ post m hsplit hno₁ hmatch hno₂ hshape hkind hv₁
    have h1 : defLoop t defs (v₁ :: t :: v₂ :: post) m false =
        .ok ((t :: v₂ :: post), mapInsert d.Name (.str v₁) m, true) := by
      rw [hsplit, defLoop_skip t ds₁ hno₁]
      exact defLoop_string_capture t d ds₂ hmatch hkind hno₂ v₁ _ hv₁ m false
    rw [parseLoop_step defs t _ _ m _ hshape h1]
    exact parseLoop_overwrite defs t ds₁ ds₂ d hsplit hno₁ hmatch hshape
      (.str v₁) (v₂ :: post) m
  · intro defs t ds₁ ds₂ d v₁ n₁ v₂ post m hsplit hno₁ hmatch hno₂ hshape hkind hv₁ hA
    have h1 : defLoop t defs (v₁ :: t :: v₂ :: post) m false =
        .ok ((t :: v₂ :: post), mapInsert d.Name (.int n₁) m, true) := by
      rw [hsplit, defLoop_skip t ds₁ hno₁]
      exact defLoop_int_capture t d ds₂ hmatch hkind hno₂ v₁ n₁ _ hv₁ hA m false
    rw [parseLoop_step defs t _ _ m _ hshape h1]
    exact parseLoop_overwrite defs t ds₁ ds₂ d hsplit hno₁ hmatch hshape
      (.int n₁) (v₂ :: post) m
  · intro defs t ds₁ ds₂ d v vs' rest₂ m hsplit hno₁ hmatch hno₂ hshape hkind hv hvs
    have hbound : dashBoundary (t :: rest₂) = true := flagMatches_dash hmatch
    have h1 : defLoop t defs ((v :: vs') ++ t :: rest₂) m false =
        .ok ((t :: rest₂), mapInsert d.Name (.list (v :: vs')) m, true) := by
      rw [hsplit, defLoop_skip t ds₁ hno₁]
      exact defLoop_list_capture t d ds₂ hmatch hkind hno₂ v vs' (t :: rest₂)
        hv hvs hbound m false
    rw [parseLoop_step defs t _ _ m _ hshape h1]
    exact parseLoop_overwrite defs t ds₁ ds₂ d hsplit hno₁ hmatch hshape
      (.list (v :: vs')) rest₂ m
  · intro defs t ds₁ ds₂ d post m hsplit hno₁ hmatch hkind hshape
    have h1 : ∀ (r : List String) (m' : PMap), defLoop t defs r m' false =
        .ok (r, mapInsert d.Name (.bool true) m', true) := by
      intro r m'
      rw [hsplit, defLoop_skip t ds₁ hno₁]
      exact defLoop_bool_break t d ds₂ hmatch hkind r m' false
    rw [parseLoop_step defs t _ _ m _ hshape (h1 (t :: post) m),
      parseLoop_step defs t _ _ _ _ hshape
        (h1 post (mapInsert d.Name (.bool true) m)),
      parseLoop_step defs t _ _ m _ hshape (h1 post m),
      mapInsert_mapInsert_self]

/-- Witness for C8: repeated `-c`, `-r`, `-m` and `-v` flags on the sample
schema collapse to their last occurrence. -/
theorem claim_C8_last_match_wins_witness :
    parseLoop sampleParser.args ["-c", "y"] (mapInsert "config" (.str "x") []) =
        parseLoop sampleParser.args ["-c", "y"] [] ∧
    parseLoop sampleParser.args ["-c", "x", "-c", "y"] [] =
        parseLoop sampleParser.args ["-c", "y"] [] ∧
    parseLoop sampleParser.args ["-r", "1", "-r", "2"] [] =
        parseLoop sampleParser.args ["-r", "2"] [] ∧
    parseLoop sampleParser.args ["-m", "x", "y", "-m", "z"] [] =
        parseLoop sampleParser.args ["-m", "z"] [] ∧
    parseLoop sampleParser.args ["-v", "-v"] [] =
        parseLoop sampleParser.args ["-v"] [] :=
  ⟨claim_C8_last_match_wins.1 sampleParser.args "-c"
      [verboseArg, allArg, briefArg] [retryArg, manyArg] configArg
      (.str "x") ["y"] [] (by decide) (by decide) (by decide) (by decide),
    claim_C8_last_match_wins.2.1 sampleParser.args "-c"
      [verboseArg, allArg, briefArg] [retryArg, manyArg] configArg
      "x" "y" [] [] (by decide) (by decide) (by decide) (by decide)
      (by decide) (by decide) (by decide),
    claim_C8_last_match_wins.2.2.1 sampleParser.args "-r"
      [verboseArg, allArg, briefArg, configArg] [manyArg] retryArg
      "1" 1 "2" [] [] (by decide) (by decide) (by decide) (by decide)
      (by decide) (by decide) (by decide) (by decide),
    claim_C8_last_match_wins.2.2.2.1 sampleParser.args "-m"
      [verboseArg, allArg, briefArg, configArg, retryArg] [] manyArg
      "x" ["y"] ["z"] [] (by decide) (by decide) (by decide) (by decide)
      (by decide) (by decide) (by decide) (by decide),
    claim_C8_last_match_wins.2.2.2.2 sampleParser.args "-v"
      [] [allArg, briefArg, configArg, retryArg, manyArg] verboseArg
      [] [] (by decide) (by decide) (by decide) (by decide) (by decide)⟩

/-! ### Exclusive groups evaluated on the finalized map (claim C10) -/

theorem countP_ext {α : Type} (p q : α → Bool) (h : ∀ a, p a = q a) :
    ∀ l : List α, l.countP p = l.countP q
  | [] => rfl
  | x :: l => by rw [List.countP_cons, List.countP_cons, h x, countP_ext p q h l]

theorem two_le_countP {α : Type} (p : α → Bool) :
    ∀ (l : List α) (a b : α), a ∈ l → b ∈ l → a ≠ b → p a = true → p b = true →
      2 ≤ l.countP p
  | [], a, _, ha, _, _, _, _ => absurd ha (List.not_mem_nil a)
  | x :: l, a, b, ha, hb, hne, hpa, hpb => by
    rw [List.countP_cons]
    rcases List.mem_cons.mp ha with rfl | ha' <;>
      rcases List.mem_cons.mp hb with rfl | hb'
    · exact absurd rfl hne
    · have h1 : 0 < l.countP p := List.countP_pos_iff.mpr ⟨b, hb', hpb⟩
      simp only [hpa, if_true]
      omega
    · have h1 : 0 < l.countP p := List.countP_pos_iff.mpr ⟨a, ha', hpa⟩
      simp only [hpb, if_true]
      omega
    · have := two_le_countP p l a b ha' hb' hne hpa hpb
      omega

theorem validateGroupsLoop_isSome_of_violation (m : PMap) :
    ∀ (gs : List ExclusiveGroup) (g : ExclusiveGroup), g ∈ gs →
      1 < groupFoundCount m g.Options →
      (validateGroupsLoop m gs).isSome = true
  | [], g, hg, _ => absurd hg (List.not_mem_nil g)
  | g₀ :: gs, g, hg, hcount => by
    simp only [validateGroupsLoop]
    by_cases h1 : groupFoundCount m g₀.Options > 1
    · rw [if_pos h1]
      rfl
    · rcases List.mem_cons.mp hg with rfl | hg'
      · exact absurd hcount h1
      · rw [if_neg h1]
        by_cases h2 : (g₀.MustHave && groupFoundCount m g₀.Options == 0) = true
        · rw [if_pos h2]
          rfl
        · rw [if_neg h2]
          exact validateGroupsLoop_isSome_of_violation m gs g hg' hcount

theorem validateGroupsLoop_congr (m₁ m₂ : PMap)
    (h : ∀ k, (mapLookup k m₁).isSome = (mapLookup k m₂).isSome) :
    ∀ gs : List ExclusiveGroup, validateGroupsLoop m₁ gs = validateGroupsLoop m₂ gs
  | [] => rfl
  | g :: gs => by
    have hc : groupFoundCount m₁ g.Options = groupFoundCount m₂ g.Options :=
      countP_ext _ _ (fun n => h n) g.Options
    rw [validateGroupsLoop, validateGroupsLoop, hc,
      validateGroupsLoop_congr m₁ m₂ h gs]

/-- C10: because absent Bool options and absent defaulted optionals are
installed into the map before group validation, (a) a mutual-exclusion
group with two distinct Bool-kind (or defaulted) member options fails
group validation on every finalized map and so can never let `Parse`
produce a result map, even when neither flag appears in the input; (b) a mustHaveOne group containing any Bool-kind or defaulted
declared option always has its must-have check satisfied; (c) group
validation depends only on which keys exist in the finalized map, not on
the stored values. -/
theorem claim_C10_groups_see_installed_defaults (p : Parser) :
    (∀ g ∈ p.exclusiveGroups, ∀ n₁ n₂ : String, n₁ ∈ g.Options →
      n₂ ∈ g.Options → n₁ ≠ n₂ →
      (∃ d₁ ∈ p.args, d₁.Name = n₁ ∧ (d₁.DataType = "bool" ∨ d₁.DefaultValue ≠ none)) →
      (∃ d₂ ∈ p.args, d₂.Name = n₂ ∧ (d₂.DataType = "bool" ∨ d₂.DefaultValue ≠ none)) →
      (∀ m₀ : PMap,
        (p.validateExclusiveGroups (applyDefaults p.args m₀)).isSome = true) ∧
      (∀ args : List String, (p.Parse args).1 = none)) ∧
    (∀ (g : ExclusiveGroup) (n : String), n ∈ g.Options →
      (∃ d ∈ p.args, d.Name = n ∧ (d.DataType = "bool" ∨ d.DefaultValue ≠ none)) →
      ∀ m₀ : PMap,
        (g.MustHave && groupFoundCount (applyDefaults p.args m₀) g.Options == 0) = false) ∧
    (∀ m₁ m₂ : PMap, (∀ k, (mapLookup k m₁).isSome = (mapLookup k m₂).isSome) →
      p.validateExclusiveGroups m₁ = p.validateExclusiveGroups m₂) := by
  refine ⟨?_, ?_, ?_⟩
  · intro g hg n₁ n₂ h₁ h₂ hne hd₁ hd₂
    obtain ⟨d₁, hd₁m, hd₁n, hd₁k⟩ := hd₁
    obtain ⟨d₂, hd₂m, hd₂n, hd₂k⟩ := hd₂
    have hval : ∀ m₀ : PMap,
        (p.validateExclusiveGroups (applyDefaults p.args m₀)).isSome = true := by
      intro m₀
      have hp₁ : (mapLookup n₁ (applyDefaults p.args m₀)).isSome = true := by
        rw [← hd₁n]
        exact isSome_mapLookup_applyDefaults p.args d₁ hd₁m hd₁k m₀
      have hp₂ : (mapLookup n₂ (applyDefaults p.args m₀)).isSome = true := by
        rw [← hd₂n]
        exact isSome_mapLookup_applyDefaults p.args d₂ hd₂m hd₂k m₀
      have hcount : 1 < groupFoundCount (applyDefaults p.args m₀) g.Options := by
        have := two_le_countP (fun n => (mapLookup n (applyDefaults p.args m₀)).isSome)
          g.Options n₁ n₂ h₁ h₂ hne hp₁ hp₂
        unfold groupFoundCount
        omega
      exact validateGroupsLoop_isSome_of_violation
        (applyDefaults p.args m₀) p.exclusiveGroups g hg hcount
    refine ⟨hval, ?_⟩
    intro args
    cases hres : (p.Parse args).1 with
    | none => rfl
    | some m =>
      obtain ⟨m₀, _, _, hv0⟩ := Parse_some_inv p args m hres
      have hsome := hval m₀
      rw [hv0] at hsome
      cases hsome
  · intro g n hn hd m₀
    obtain ⟨d, hdm, hdn, hdk⟩ := hd
    have hp : (mapLookup n (applyDefaults p.args m₀)).isSome = true := by
      rw [← hdn]
      exact isSome_mapLookup_applyDefaults p.args d hdm hdk m₀
    have hpos : 0 < groupFoundCount (applyDefaults p.args m₀) g.Options :=
      List.countP_pos_iff.mpr ⟨n, hn, hp⟩
    have hz : (groupFoundCount (applyDefaults p.args m₀) g.Options == 0) = false := by
      simp only [beq_eq_false_iff_ne, ne_eq]
      omega
    rw [hz, Bool.and_false]
  · intro m₁ m₂ h
    exact validateGroupsLoop_congr m₁ m₂ h p.exclusiveGroups

/-- Witness for C10: a group of two Bool options makes the parse of
`["-v"]` fail even though only one of them was passed; a must-have group
naming a Bool option is satisfied on the empty scan map; validation is
presence-determined. -/
theorem claim_C10_groups_see_installed_defaults_witness :
    (exclParser.validateExclusiveGroups (applyDefaults exclParser.args [])).isSome = true ∧
    (exclParser.Parse ["-v"]).1 = none ∧
    ((⟨["verbose"], true⟩ : ExclusiveGroup).MustHave &&
      groupFoundCount (applyDefaults exclParser.args [])
        (⟨["verbose"], true⟩ : ExclusiveGroup).Options == 0) = false ∧
    exclParser.validateExclusiveGroups [] = exclParser.validateExclusiveGroups [] :=
  ⟨((claim_C10_groups_see_installed_defaults exclParser).1
      ⟨["verbose", "all"], false⟩ (by decide) "verbose" "all"
      (by decide) (by decide) (by decide)
      ⟨verboseArg, by decide, by decide, Or.inl (by decide)⟩
      ⟨allArg, by decide, by decide, Or.inl (by decide)⟩).1 [],
    ((claim_C10_groups_see_installed_defaults exclParser).1
      ⟨["verbose", "all"], false⟩ (by decide) "verbose" "all"
      (by decide) (by decide) (by decide)
      ⟨verboseArg, by decide, by decide, Or.inl (by decide)⟩
      ⟨allArg, by decide, by decide, Or.inl (by decide)⟩).2
      ["-v"],
    (claim_C10_groups_see_installed_defaults exclParser).2.1
      ⟨["verbose"], true⟩ "verbose" (by decide)
      ⟨verboseArg, by decide, by decide, Or.inl (by decide)⟩ [],
    (claim_C10_groups_see_installed_defaults exclParser).2.2 [] []
      (fun _ => rfl)⟩

end GoParse
